import Mathlib

/-!
A shallow embedding of `main.go` of whatsapp-media.

The program reads chat sessions and media rows from a database and copies every
media file to `<target>/<contact name>/<timestamp>.<extension>`.

* Go strings are lists of characters (`Str`).
* The parts of the Go standard library the program calls (`strings`, `time`, `os`,
  `database/sql`) are modelled from their documented behaviour.
* The value of a `float64` is a rational number; `float64` multiplication is a parameter
  (`fmul`).  The IEEE 754 product, rounded to nearest with ties to even, is `ieeeMul`; the
  theorems about timestamps hold for every multiplication that is `Faithful`, which
  `ieeeMul` is proved to be.
* The conversion `int64` has the range of 64 bits.
* The file system is an explicit state: paths name files, several paths may name one file
  (hard links).  Failures that the state does not decide (permissions, devices, full disks)
  are given by a `Faults` record.
-/

namespace WhatsappMedia

/-! ## Strings -/

/-- Go strings. -/
abbrev Str := List Char

/-- The function `strings.TrimLeft`: drop every leading character that is in the cutset. -/
def TrimLeft (s cutset : Str) : Str :=
  s.dropWhile (fun c => decide (c ∈ cutset))

/-- The function `strings.Split` for a one-character separator: the pieces between the
separators, one more than there are separators. -/
def Split (s : Str) (sep : Char) : List Str :=
  match s with
  | [] => [[]]
  | c :: cs =>
    if c = sep then [] :: Split cs sep
    else
      match Split cs sep with
      | [] => [[c]]
      | h :: t => (c :: h) :: t

/-- The function `strings.Join`. -/
def Join (parts : List Str) (sep : Str) : Str :=
  match parts with
  | [] => []
  | [p] => p
  | p :: q :: rest => p ++ sep ++ Join (q :: rest) sep

/-- Byte-wise lexicographic order on strings, the order of Go's `<=` on strings. -/
def lexLe : Str → Str → Bool
  | [], _ => true
  | _ :: _, [] => false
  | a :: as, b :: bs => if a.toNat < b.toNat then true else if a = b then lexLe as bs else false

/-! ## The `time` package -/

/-- A `*time.Location`: the offset from UTC, in seconds east, in force at a Unix second. -/
structure Location where
  offset : Int → Int

/-- The location `time.UTC`. -/
def UTC : Location := ⟨fun _ => 0⟩

/-- The function `time.FixedZone`: a location that always uses the given offset. -/
def fixedZone (offset : Int) : Location := ⟨fun _ => offset⟩

/-- Central European time around its change of 28 October 2001, 01:00:00 UTC (Unix second
1004230800): two hours east of UTC before, one hour after. -/
def centralEurope : Location := ⟨fun s => if s < 1004230800 then 7200 else 3600⟩

/-- A `time.Time`: an instant (`sec` seconds and `nsec` nanoseconds after
1970-01-01T00:00:00 UTC) and the location it is displayed in.  The seconds are an integer
without bound here; Go keeps them in 64 bits, which hold every time the theorems about
timestamps speak of (years 0000 to 9999). -/
structure Time where
  sec : Int
  nsec : Int
  loc : Location

/-- The function `time.Unix`: the local `Time` for a Unix time; `nsec` outside
`[0, 999999999]` is carried into the seconds.  Go's `/` truncates toward zero. -/
def Unix (localZone : Location) (sec nsec : Int) : Time :=
  if nsec < 0 ∨ nsec ≥ 1000000000 then
    let n := Int.tdiv nsec 1000000000
    let sec1 := sec + n
    let nsec1 := nsec - n * 1000000000
    if nsec1 < 0 then ⟨sec1 - 1, nsec1 + 1000000000, localZone⟩
    else ⟨sec1, nsec1, localZone⟩
  else ⟨sec, nsec, localZone⟩

/-- The method `Time.Add` for a duration `d` in nanoseconds; the location is kept. -/
def Time.Add (t : Time) (d : Int) : Time :=
  let dsec := Int.tdiv d 1000000000
  let nsec := t.nsec + Int.tmod d 1000000000
  if nsec ≥ 1000000000 then ⟨t.sec + (dsec + 1), nsec - 1000000000, t.loc⟩
  else if nsec < 0 then ⟨t.sec + (dsec - 1), nsec + 1000000000, t.loc⟩
  else ⟨t.sec + dsec, nsec, t.loc⟩

/-- The constant `time.Second`, in nanoseconds. -/
def Second : Int := 1000000000

/-- Decimal digits of a number, most significant first; the fuel bounds their count. -/
def digitsAux : Nat → Nat → List Char → List Char
  | 0, _, acc => acc
  | fuel + 1, n, acc =>
    if n < 10 then Nat.digitChar n :: acc
    else digitsAux fuel (n / 10) (Nat.digitChar (n % 10) :: acc)

/-- The helper `appendInt` of the `time` package: the decimal form of `x`, with a sign
when negative, padded with leading zeros to `width` digits.  A 64-bit value has at most
20 digits. -/
def appendInt (x : Int) (width : Nat) : Str :=
  let ds := digitsAux 20 x.natAbs []
  (if x < 0 then ['-'] else []) ++ List.replicate (width - ds.length) '0' ++ ds

/-- The last `w` decimal digits of `n`, most significant first. -/
def fixed : Nat → Nat → Str
  | 0, _ => []
  | w + 1, n => fixed w (n / 10) ++ [Nat.digitChar (n % 10)]

/-- Hundred-year blocks inside a 400-year cycle of 146097 days: the number of whole blocks
(at most 3, the last block is one day longer) and the day within the block. -/
def century (d : Int) : Int × Int :=
  let n := d / 36524 - d / 36524 / 4
  (n, d - 36524 * n)

/-- Four-year blocks of 1461 days inside a hundred-year block. -/
def quad (d : Int) : Int × Int := (d / 1461, d - 1461 * (d / 1461))

/-- Years inside a four-year block: the number of whole years (at most 3, the last year
is one day longer) and the day within the year. -/
def annual (d : Int) : Int × Int :=
  let n := d / 365 - d / 365 / 4
  (n, d - 365 * n)

/-- The year starting on 1 March, and the day within it, of the day `z` days after
1970-01-01 (proleptic Gregorian calendar; 719468 days separate 0000-03-01 from
1970-01-01). -/
def yearDay (z : Int) : Int × Int :=
  let c := century ((z + 719468) % 146097)
  let q := quad c.2
  let a := annual q.2
  (400 * ((z + 719468) / 146097) + 100 * c.1 + 4 * q.1 + a.1, a.2)

/-- The calendar date (year, month, day) of the day `z` days after 1970-01-01, what
`Time.Date` returns. -/
def civil (z : Int) : Int × Int × Int :=
  let y := (yearDay z).1
  let doy := (yearDay z).2
  let mp := (5 * doy + 2) / 153
  let d := doy - (153 * mp + 2) / 5 + 1
  let m := if mp < 10 then mp + 3 else mp - 9
  (if m ≤ 2 then y + 1 else y, m, d)

/-- The call `t.Format("20060102150405.000")`: year (four digits or more), month, day,
hour, minute, second of the instant in the location of `t`, a dot, and the first three
of the nine nanosecond digits. -/
def Time.Format (t : Time) : Str :=
  let abs := t.sec + t.loc.offset t.sec
  let date := civil (abs / 86400)
  let sod := abs % 86400
  appendInt date.1 4 ++ appendInt date.2.1 2 ++ appendInt date.2.2 2 ++
    appendInt (sod / 3600) 2 ++ appendInt (sod % 3600 / 60) 2 ++ appendInt (sod % 60) 2 ++
    '.' :: (appendInt t.nsec 9).take 3

/-- The calendar rendering `YYYYMMDDHHMMSS.mmm` of the instant `ms` milliseconds after
1970-01-01T00:00:00 UTC, on a clock `offset` seconds east of UTC.  This is the rendering
the specification speaks of; it is defined from the millisecond count alone. -/
def calendarStamp (offset : Int) (ms : Int) : Str :=
  let l := ms + offset * 1000
  let date := civil (l / 86400000)
  let r := l % 86400000
  appendInt date.1 4 ++ appendInt date.2.1 2 ++ appendInt date.2.2 2 ++
    appendInt (r / 3600000) 2 ++ appendInt (r / 60000 % 60) 2 ++ appendInt (r / 1000 % 60) 2 ++
    '.' :: appendInt (r % 1000) 3

/-! ## Timestamps of media rows (`main`, lines 96-107) -/

/-- What `items.Scan` stores in `val interface{}` for the message date. -/
inductive Value where
  | time (t : Time)
  | float64 (f : ℚ)
  | other

/-- The conversion `int64(t)` of a `float64`: the fraction is discarded.  For a value
outside the range of `int64` the Go specification leaves the result to the implementation;
the result on amd64, the smallest `int64`, is taken here. -/
def int64 (f : ℚ) : Int :=
  if -9223372036854775808 ≤ Int.tdiv f.num f.den ∧ Int.tdiv f.num f.den ≤ 9223372036854775807
  then Int.tdiv f.num f.den
  else -9223372036854775808

/-- Lines 101-103: `sec := int64(t)`, `nsec := t - float64(sec)` (exact in IEEE
arithmetic: the fraction of a double is a double), `time.Unix(sec, int64(nsec*1000000000))`.
The product is the one rounded operation; `fmul` is the `float64` multiplication. -/
def unixOfFloat (localZone : Location) (fmul : ℚ → ℚ → ℚ) (t : ℚ) : Time :=
  let sec := int64 t
  let nsec := t - (sec : ℚ)
  Unix localZone sec (int64 (fmul nsec 1000000000))

/-- The nanosecond count after the application epoch that lines 101-103 hand to
`time.Unix`, seconds and nanoseconds taken together. -/
def nanosOfFloat (fmul : ℚ → ℚ → ℚ) (t : ℚ) : Int :=
  int64 t * 1000000000 + int64 (fmul (t - (int64 t : ℚ)) 1000000000)

/-- Two properties of the IEEE multiplication of a `float64` by 1000000000: it is
monotone, and it is exact when the exact product is a whole number of at most ten
digits. -/
structure Faithful (fmul : ℚ → ℚ → ℚ) : Prop where
  mono : ∀ x y : ℚ, x ≤ y → fmul x 1000000000 ≤ fmul y 1000000000
  whole : ∀ (x : ℚ) (n : Int), x * 1000000000 = n → -1000000000 ≤ n → n ≤ 1000000000 →
    fmul x 1000000000 = n

/-- Multiplication without rounding: the `float64` product wherever the exact product is
itself a `float64`, as it is at the timestamp 0 of the examples below. -/
def exactMul : ℚ → ℚ → ℚ := fun x y => x * y

/-- The whole number nearest to a rational, the even one of two equally near. -/
def roundHalfEven (s : ℚ) : Int :=
  if s - (⌊s⌋ : ℚ) < 1 / 2 then ⌊s⌋
  else if 1 / 2 < s - (⌊s⌋ : ℚ) then ⌊s⌋ + 1
  else if ⌊s⌋ % 2 = 0 then ⌊s⌋ else ⌊s⌋ + 1

/-- The exponent of the last of the 53 bits a `float64` keeps of a value: 52 below the
exponent of the value, and -1074 for the smallest (subnormal) values. -/
def ulpExp (q : ℚ) : Int := max (Int.log 2 |q| - 52) (-1074)

/-- The `float64` nearest to a rational, IEEE 754 round to nearest, ties to even.
Overflow to infinity (magnitudes of 2^1024 and more) is left out. -/
def roundFloat64 (q : ℚ) : ℚ := (roundHalfEven (q / 2 ^ ulpExp q) : ℚ) * 2 ^ ulpExp q

/-- The `float64` product: the exact product, rounded. -/
def ieeeMul (x y : ℚ) : ℚ := roundFloat64 (x * y)

/-- The `float64` nearest to 0.3, which is `0x1.3333333333333p-2`, a little less than
0.3. -/
def double03 : ℚ := 5404319552844595 / 18014398509481984

/-- The shape `YYYYMMDDHHMMSS.mmm`: fourteen digits, a dot, three digits. -/
def StampShape (s : Str) : Prop :=
  ∃ x y : Str, s = x ++ '.' :: y ∧ x.length = 14 ∧ y.length = 3 ∧
    (∀ c ∈ x, c.isDigit = true) ∧ (∀ c ∈ y, c.isDigit = true)

/-- Lines 96-107: the type switch on the scanned value, then
`datetime.Add(978307200 * time.Second)`.  The result is `none` on `log.Fatal`. -/
def datetimeOf (localZone : Location) (fmul : ℚ → ℚ → ℚ) : Value → Option Time
  | .time t => some (t.Add (978307200 * Second))
  | .float64 f => some ((unixOfFloat localZone fmul f).Add (978307200 * Second))
  | .other => none

/-- The message timestamp a scanned value stands for, in seconds: the number itself, or
the Unix time of the `time.Time`. -/
def Value.seconds : Value → ℚ
  | .time t => (t.sec : ℚ) + (t.nsec : ℚ) / 1000000000
  | .float64 f => f
  | .other => 0

/-- The instant, in nanoseconds, of the `time.Time` that the type switch of lines 96-104
yields for a scanned value, before the shift of line 106. -/
def Value.nanos (fmul : ℚ → ℚ → ℚ) : Value → Int
  | .time t => t.sec * 1000000000 + t.nsec
  | .float64 f => nanosOfFloat fmul f
  | .other => 0

/-- The clock a scanned value is rendered on keeps the offset `c` from UTC: the local
time zone for a number, its own location for a `time.Time` (whose nanoseconds lie within
a second, as those of every `time.Time` do). -/
def Value.onClock (localZone : Location) (c : Int) : Value → Prop
  | .time t => (∀ s, t.loc.offset s = c) ∧ 0 ≤ t.nsec ∧ t.nsec < 1000000000
  | .float64 _ => ∀ s, localZone.offset s = c
  | .other => False

/-- The timestamp part of the destination file name (line 125). -/
def stampOf (localZone : Location) (fmul : ℚ → ℚ → ℚ) (v : Value) : Option Str :=
  (datetimeOf localZone fmul v).map Time.Format

/-! ## The file system and `copy` (lines 141-186) -/

/-- What a file is: a regular file with its bytes, a directory, or anything else
(device, pipe, socket). -/
inductive Node where
  | regular (content : List Nat)
  | directory
  | irregular
deriving DecidableEq

/-- A file system: `entry` gives the file a path names (device and inode, as one number),
`node` what each file is, and `next` the number the next new file gets.  Two paths with
the same entry are hard links of one file. -/
structure FS where
  entry : Str → Option Nat
  node : Nat → Node
  next : Nat

/-- Every file that a path names was numbered before `next`. -/
def FS.WF (fs : FS) : Prop := ∀ p i, fs.entry p = some i → i < fs.next

/-- The bytes read through a path, when it names a regular file. -/
def FS.content (fs : FS) (p : Str) : Option (List Nat) :=
  match fs.entry p with
  | none => none
  | some i =>
    match fs.node i with
    | .regular c => some c
    | _ => none

/-- Failures of the system calls of one `copy` that the file-system state does not
decide: `link` refuses the hard link (other device, no permission, no support); `write`
is the number of bytes `io.Copy` writes before it fails. -/
structure Faults where
  statSrc : Bool
  statDst : Bool
  link : Bool
  openSrc : Bool
  create : Bool
  write : Option Nat
  sync : Bool
  close : Bool

/-- No system call fails for an outside reason, except perhaps the hard link. -/
def Faults.onlyLink (k : Faults) : Prop :=
  k.statSrc = false ∧ k.statDst = false ∧ k.openSrc = false ∧ k.create = false ∧
    k.write = none ∧ k.sync = false ∧ k.close = false

/-- The errors `copy` returns. -/
inductive CopyError where
  | statFailed
  | notExist
  | nonRegularSource
  | nonRegularDestination
  | openFailed
  | createFailed
  | copyFailed
  | syncFailed
  | closeFailed
deriving DecidableEq

/-- An `os.FileInfo`: the identity of the file and what it is. -/
structure FileInfo where
  id : Nat
  node : Node

/-- The method `Mode().IsRegular()`. -/
def FileInfo.IsRegular (fi : FileInfo) : Bool :=
  match fi.node with
  | .regular _ => true
  | _ => false

/-- The function `os.SameFile`: same device and inode. -/
def SameFile (a b : FileInfo) : Bool := decide (a.id = b.id)

/-- The function `os.Stat`. -/
def Stat (fault : Bool) (fs : FS) (p : Str) : Except CopyError FileInfo :=
  if fault then .error .statFailed
  else
    match fs.entry p with
    | none => .error .notExist
    | some i => .ok ⟨i, fs.node i⟩

/-- The function `os.Link`: it never replaces an existing destination. -/
def Link (fault : Bool) (fs : FS) (src dst : Str) : Option FS :=
  match fs.entry src, fs.entry dst with
  | some si, none =>
    if fault then none
    else some { fs with entry := fun p => if p = dst then some si else fs.entry p }
  | _, _ => none

/-- Replace the bytes of file `i`; every path that names `i` reads the new bytes. -/
def FS.write (fs : FS) (i : Nat) (bytes : List Nat) : FS :=
  { fs with node := fun j => if j = i then .regular bytes else fs.node j }

/-- The function `os.Open`, for reading: the file the path names. -/
def Open (fault : Bool) (fs : FS) (p : Str) : Option Nat :=
  if fault then none else fs.entry p

/-- The function `os.Create`: an existing file is truncated in place, a missing one is
made; a directory cannot be opened for writing. -/
def Create (fault : Bool) (fs : FS) (p : Str) : Option (Nat × FS) :=
  if fault then none
  else
    match fs.entry p with
    | some i =>
      match fs.node i with
      | .directory => none
      | _ => some (i, fs.write i [])
    | none =>
      some (fs.next,
        { entry := fun q => if q = p then some fs.next else fs.entry q
          node := fun j => if j = fs.next then .regular [] else fs.node j
          next := fs.next + 1 })

/-- The bytes of file `i` as a reader sees them. -/
def FS.bytes (fs : FS) (i : Nat) : List Nat :=
  match fs.node i with
  | .regular c => c
  | _ => []

/-- Lines 162-185 of `copy`: hard link, else open, create, `io.Copy`, `Sync`, and the
deferred `Close` whose error is reported when no earlier error is. -/
def linkOrCopy (k : Faults) (fs : FS) (src dst : Str) : Option CopyError × FS :=
  match Link k.link fs src dst with
  | some fs1 => (none, fs1)
  | none =>
    match Open k.openSrc fs src with
    | none => (some .openFailed, fs)
    | some si =>
      match Create k.create fs dst with
      | none => (some .createFailed, fs)
      | some (di, fs1) =>
        match k.write with
        | some n => (some .copyFailed, fs1.write di ((fs1.bytes si).take n))
        | none =>
          let fs2 := fs1.write di (fs1.bytes si)
          if k.sync then (some .syncFailed, fs2)
          else if k.close then (some .closeFailed, fs2)
          else (none, fs2)

/-- The function `copy(src, dst string) (err error)`. -/
def copy (k : Faults) (fs : FS) (src dst : Str) : Option CopyError × FS :=
  match Stat k.statSrc fs src with
  | .error e => (some e, fs)
  | .ok sfi =>
    if !sfi.IsRegular then (some .nonRegularSource, fs)
    else
      match Stat k.statDst fs dst with
      | .error .notExist => linkOrCopy k fs src dst
      | .error e => (some e, fs)
      | .ok dfi =>
        if !dfi.IsRegular then (some .nonRegularDestination, fs)
        else if SameFile sfi dfi then (none, fs)
        else linkOrCopy k fs src dst

/-! ## The database and `main` (lines 16-139) -/

/-- The three flags. -/
structure Flags where
  db : Str
  media : Str
  target : Str

/-- The rows of a query as the loop meets them: a row is `none` when `Scan` returns an
error on it; `err` is what `rows.Err()` reports after the loop. -/
structure Rows (α : Type) where
  rows : List (Option α)
  err : Bool

/-- The database: whether `sql.Open` fails, and the result of the two queries (`none`
when `db.Query` returns an error).  A chat row is (name, id); a media row is
(section id, message date, local path). -/
structure DB where
  openErr : Bool
  chats : Option (Rows (Str × Str))
  items : Option (Rows (Str × Value × Str))

/-- Everything outside the program: the local time zone, `float64` multiplication, the
database, the paths on which `os.Stat` fails for a reason other than absence, what
`os.MkdirAll` does (`none` when it fails), and the faults met by the copy of the media
row with a given index. -/
structure Env where
  localZone : Location
  fmul : ℚ → ℚ → ℚ
  db : DB
  statErr : Str → Bool
  mkdirAll : FS → Str → Option FS
  faults : Nat → Faults

/-- The calls of `log.Fatal` and `log.Fatalf`. -/
inductive Fatal where
  | noDbPath
  | noMediaPath
  | mediaMissing
  | noTargetPath
  | mkdirFailed
  | openFailed
  | queryFailed
  | duplicateId (id : Str)
  | rowsFailed
  | scanFailed
  | unsupportedDateTime
  | invalidMediaPath (path : Str)
  | chatNotFound (id : Str)
  | invalidFileName (path : Str)
  | copyFailed (e : CopyError)
deriving DecidableEq

/-- What a run does that can be seen from outside, in order. -/
inductive Event where
  | mkdirAll (path : Str)
  | chatQuery
  | scanWarning
  | mediaQuery
  | copy (src dst : Str)
deriving DecidableEq

/-- A run, or a part of one: the events, how it ended (`.error` is `log.Fatal`, the
process exits with status 1) and the file system it leaves. -/
structure Run (α : Type) where
  events : List Event
  result : Except Fatal α
  fs : FS

/-- Put events in front of a run. -/
def Run.after (es : List Event) (r : Run α) : Run α :=
  { r with events := es ++ r.events }

/-- Whether `os.Stat` reports that the path does not exist (`err != nil &&
os.IsNotExist(err)`); every other outcome, another error included, is not. -/
def missing (env : Env) (fs : FS) (p : Str) : Bool :=
  !env.statErr p && (fs.entry p).isNone

/-- The chat loop, lines 54-76: `chatsMap` is the association list of (id, name). -/
def chatLoop (env : Env) (target : Str) :
    List (Option (Str × Str)) → List (Str × Str) → FS → Run (List (Str × Str))
  | [], chatsMap, fs => ⟨[], .ok chatsMap, fs⟩
  | none :: rest, chatsMap, fs =>
    (chatLoop env target rest chatsMap fs).after [.scanWarning]
  | some (name, id) :: rest, chatsMap, fs =>
    if (chatsMap.lookup id).isSome then ⟨[], .error (.duplicateId id), fs⟩
    else
      let folder := target ++ "/".toList ++ name
      if missing env fs folder then
        match env.mkdirAll fs folder with
        | none => ⟨[.mkdirAll folder], .error .mkdirFailed, fs⟩
        | some fs1 =>
          (chatLoop env target rest ((id, name) :: chatsMap) fs1).after [.mkdirAll folder]
      else chatLoop env target rest ((id, name) :: chatsMap) fs

/-- A row of the chat query as the database holds it: the name and the identifier, each
possibly NULL. -/
abbrev RawChat := Option Str × Option Str

/-- The call `chats.Scan(&name, &id)` into two strings: `database/sql` cannot store a NULL
column in a string and returns an error. -/
def scanChat : RawChat → Option (Str × Str)
  | (some name, some id) => some (name, id)
  | _ => none

/-- The identifiers that appear in the rows of a chat table. -/
def tableIds (table : List RawChat) : List Str := table.filterMap (fun r => r.2)

/-- The identifiers of the chat rows that `Scan` reads. -/
def scannedIds (rows : List (Option (Str × Str))) : List Str :=
  rows.filterMap (fun r => r.map (fun x => x.2))

/-- Lines 96-128 for one scanned media row: the source and destination handed to `copy`,
or the `log.Fatal` that ends the run. -/
def transfer (env : Env) (flags : Flags) (chatsMap : List (Str × Str))
    (row : Str × Value × Str) : Except Fatal (Str × Str) :=
  match stampOf env.localZone env.fmul row.2.1 with
  | none => .error .unsupportedDateTime
  | some stamp =>
    let path := TrimLeft row.2.2 "/".toList
    let parts := Split path '/'
    if parts.length < 2 then .error (.invalidMediaPath path)
    else
      match chatsMap.lookup (parts.getD 1 []) with
      | none => .error (.chatNotFound (parts.getD 1 []))
      | some folder =>
        let extParts := Split (parts.getD (parts.length - 1) []) '.'
        if extParts.length ≠ 2 then .error (.invalidFileName path)
        else
          let extension := extParts.getD 1 []
          let filename := stamp ++ ".".toList ++ extension
          let src := flags.media ++ "/".toList ++ Join (parts.drop 1) "/".toList
          let dst := flags.target ++ "/".toList ++ folder ++ "/".toList ++ filename
          .ok (src, dst)

/-- The media loop, lines 86-134; `i` is the index of the first row of the list. -/
def itemLoop (env : Env) (flags : Flags) (chatsMap : List (Str × Str)) :
    List (Option (Str × Value × Str)) → Nat → FS → Run Unit
  | [], _, fs => ⟨[], .ok (), fs⟩
  | none :: _, _, fs => ⟨[], .error .scanFailed, fs⟩
  | some row :: rest, i, fs =>
    match transfer env flags chatsMap row with
    | .error e => ⟨[], .error e, fs⟩
    | .ok (src, dst) =>
      match copy (env.faults i) fs src dst with
      | (some e, fs1) => ⟨[.copy src dst], .error (.copyFailed e), fs1⟩
      | (none, fs1) => (itemLoop env flags chatsMap rest (i + 1) fs1).after [.copy src dst]

/-- Lines 82-138: the media query, its loop, and `items.Err()`. -/
def mediaPhase (env : Env) (flags : Flags) (chatsMap : List (Str × Str)) (fs : FS) :
    Run Unit :=
  match env.db.items with
  | none => ⟨[.mediaQuery], .error .queryFailed, fs⟩
  | some items =>
    let r := itemLoop env flags chatsMap items.rows 0 fs
    match r.result with
    | .error e => ⟨.mediaQuery :: r.events, .error e, r.fs⟩
    | .ok _ =>
      if items.err then ⟨.mediaQuery :: r.events, .error .rowsFailed, r.fs⟩
      else ⟨.mediaQuery :: r.events, .ok (), r.fs⟩

/-- Lines 48-138: the chat query, its loop, `chats.Err()`, then the media phase. -/
def chatPhase (env : Env) (flags : Flags) (fs : FS) : Run Unit :=
  match env.db.chats with
  | none => ⟨[.chatQuery], .error .queryFailed, fs⟩
  | some chats =>
    let r := chatLoop env flags.target chats.rows [] fs
    match r.result with
    | .error e => ⟨.chatQuery :: r.events, .error e, r.fs⟩
    | .ok chatsMap =>
      if chats.err then ⟨.chatQuery :: r.events, .error .rowsFailed, r.fs⟩
      else (mediaPhase env flags chatsMap r.fs).after (.chatQuery :: r.events)

/-- Lines 42-138, once the flags are checked and the target folder exists. -/
def session (env : Env) (flags : Flags) (fs : FS) : Run Unit :=
  if env.db.openErr then ⟨[], .error .openFailed, fs⟩ else chatPhase env flags fs

/-- The function `main`, from the parsed flags. -/
def main (env : Env) (flags : Flags) (fs : FS) : Run Unit :=
  if flags.db = [] then ⟨[], .error .noDbPath, fs⟩
  else if flags.media = [] then ⟨[], .error .noMediaPath, fs⟩
  else if missing env fs flags.media then ⟨[], .error .mediaMissing, fs⟩
  else if flags.target = [] then ⟨[], .error .noTargetPath, fs⟩
  else if missing env fs flags.target then
    match env.mkdirAll fs flags.target with
    | none => ⟨[.mkdirAll flags.target], .error .mkdirFailed, fs⟩
    | some fs1 => (session env flags fs1).after [.mkdirAll flags.target]
  else session env flags fs

/-- The copies a run asked for, in order. -/
def copies : List Event → List (Str × Str)
  | [] => []
  | .copy s d :: es => (s, d) :: copies es
  | _ :: es => copies es

/-! ## Example values -/

/-- Example flags: `-db chat.sqlite -media media -target out`. -/
def exampleFlags : Flags := ⟨"chat.sqlite".toList, "media".toList, "out".toList⟩

/-- No system call fails for an outside reason. -/
def noFaults : Faults := ⟨false, false, false, false, false, none, false, false⟩

/-- The hard link is refused, as between two devices; nothing else fails. -/
def linkRefused : Faults := ⟨false, false, true, false, false, none, false, false⟩

/-- The file system with one more directory. -/
def madeDir (fs : FS) (p : Str) : FS :=
  { entry := fun q => if q = p then some fs.next else fs.entry q
    node := fun j => if j = fs.next then .directory else fs.node j
    next := fs.next + 1 }

/-- An `os.MkdirAll` that succeeds and makes the directory. -/
def mkdirOk (fs : FS) (p : Str) : Option FS := some (madeDir fs p)

/-- A file system with the media folder and two media files of the chat `123`. -/
def exampleFS : FS :=
  { entry := fun p =>
      if p = "media".toList then some 0
      else if p = "media/123/IMG.jpg".toList then some 1
      else if p = "media/123/PIC.jpg".toList then some 2
      else none
    node := fun i =>
      if i = 0 then .directory
      else if i = 1 then .regular [1, 1, 1]
      else .regular [2, 2]
    next := 3 }

/-- The chat table of the end-to-end scenario: one row, name Alice, identifier 123. -/
def aliceChats : Rows (Str × Str) := ⟨[some ("Alice".toList, "123".toList)], false⟩

/-- A chat table in which the identifier 123 appears in two rows. -/
def duplicateChats : Rows (Str × Str) :=
  ⟨[some ("Alice".toList, "123".toList), some ("Bob".toList, "123".toList)], false⟩

/-- A chat table whose first row has a NULL name and the identifier 123, and whose second
row is Alice with the same identifier. -/
def nullNameTable : List RawChat :=
  [(none, some "123".toList), (some "Alice".toList, some "123".toList)]

/-- The rows of `nullNameTable` as the chat loop meets them: the first cannot be scanned. -/
def unreadableRowChats : Rows (Str × Str) := ⟨nullNameTable.map scanChat, false⟩

/-- Two media rows of the chat 123 with the same timestamp and the same extension. -/
def twoItems : Rows (Str × Value × Str) :=
  ⟨[some ("s1".toList, .float64 0, "/abc/123/IMG.jpg".toList),
    some ("s2".toList, .float64 0, "/abc/123/PIC.jpg".toList)], false⟩

/-- The media table of the end-to-end scenario: one row, section s1, timestamp 0.0, path
`/abc/123/IMG.jpg`. -/
def oneItem : Rows (Str × Value × Str) :=
  ⟨[some ("s1".toList, .float64 0, "/abc/123/IMG.jpg".toList)], false⟩

/-- An environment without faults around the given tables, on the given local clock. -/
def exampleEnv (zone : Location) (chats : Rows (Str × Str))
    (items : Rows (Str × Value × Str)) : Env :=
  { localZone := zone
    fmul := exactMul
    db := ⟨false, some chats, some items⟩
    statErr := fun _ => false
    mkdirAll := mkdirOk
    faults := fun _ => noFaults }

/-- The example file system once the target folder and the folder of Alice exist. -/
def aliceFS : FS := madeDir (madeDir exampleFS "out".toList) "out/Alice".toList

/-- The example file system after an earlier row was hard-linked: the destination
`out/Alice/20010101000000.000.jpg` names the same file as `media/123/IMG.jpg`. -/
def linkedFS : FS :=
  { aliceFS with
    entry := fun p =>
      if p = "out/Alice/20010101000000.000.jpg".toList then some 1 else aliceFS.entry p }

/-! # Theorems -/

/-! ## Decimal digits -/

theorem digitsAux_acc (fuel n : Nat) (acc : List Char) :
    digitsAux fuel n acc = digitsAux fuel n [] ++ acc := by
  induction fuel generalizing n acc with
  | zero => simp [digitsAux]
  | succ f ih =>
    simp only [digitsAux]
    split
    · simp
    · rw [ih (n / 10) (Nat.digitChar (n % 10) :: acc), ih (n / 10) [Nat.digitChar (n % 10)]]
      simp

theorem fixed_zero (w : Nat) : fixed w 0 = List.replicate w '0' := by
  induction w with
  | zero => rfl
  | succ w ih =>
    simp only [fixed, Nat.zero_div, ih, Nat.zero_mod]
    rw [List.replicate_succ']
    rfl

theorem fixed_length (w n : Nat) : (fixed w n).length = w := by
  induction w generalizing n with
  | zero => rfl
  | succ w ih => simp [fixed, ih]

theorem digits_pad (w : Nat) : ∀ (fuel n : Nat), 1 ≤ w → w ≤ fuel → n < 10 ^ w →
    (digitsAux fuel n []).length ≤ w ∧
    List.replicate (w - (digitsAux fuel n []).length) '0' ++ digitsAux fuel n [] = fixed w n := by
  induction w with
  | zero => intro fuel n h; omega
  | succ w ih =>
    intro fuel n _ hf hn
    obtain ⟨f, rfl⟩ : ∃ f, fuel = f + 1 := ⟨fuel - 1, by omega⟩
    by_cases h10 : n < 10
    · have hd : digitsAux (f + 1) n [] = [Nat.digitChar n] := by simp [digitsAux, h10]
      rw [hd]
      have h0 : n / 10 = 0 := by omega
      have h1 : n % 10 = n := by omega
      simp [fixed, h0, h1, fixed_zero]
    · have hd : digitsAux (f + 1) n [] = digitsAux f (n / 10) [] ++ [Nat.digitChar (n % 10)] := by
        simp only [digitsAux, h10, if_false]
        exact digitsAux_acc _ _ _
      have hw : 1 ≤ w := by
        rcases Nat.eq_zero_or_pos w with h | h
        · subst h; simp at hn; omega
        · exact h
      have hn10 : n / 10 < 10 ^ w := by
        apply Nat.div_lt_of_lt_mul
        rw [pow_succ] at hn; omega
      obtain ⟨h1, h2⟩ := ih f (n / 10) hw (by omega) hn10
      rw [hd]
      refine ⟨by simp; omega, ?_⟩
      simp only [fixed, List.length_append, List.length_singleton]
      rw [← h2, Nat.add_sub_add_right]
      simp

theorem appendInt_fixed (x : Int) (w : Nat) (hw1 : 1 ≤ w) (hw : w ≤ 20) (h0 : 0 ≤ x)
    (hx : x < 10 ^ w) : appendInt x w = fixed w x.toNat := by
  have hn : x.natAbs = x.toNat := by omega
  have hlt : x.toNat < 10 ^ w := by
    have : ((x.toNat : Nat) : Int) < ((10 ^ w : Nat) : Int) := by
      rw [Int.toNat_of_nonneg h0]; exact_mod_cast hx
    exact_mod_cast this
  have hneg : ¬ x < 0 := by omega
  simp only [appendInt, hneg, if_false, hn, List.nil_append]
  exact (digits_pad w 20 x.toNat hw1 hw hlt).2

theorem digitChar_toNat (a : Nat) (h : a < 10) : (Nat.digitChar a).toNat = 48 + a := by
  interval_cases a <;> rfl

theorem digitChar_inj (a b : Nat) (ha : a < 10) (hb : b < 10)
    (h : Nat.digitChar a = Nat.digitChar b) : a = b := by
  have h1 := digitChar_toNat a ha
  have h2 := digitChar_toNat b hb
  rw [h] at h1
  omega

theorem lexLe_digit (a b : Nat) (ha : a < 10) (hb : b < 10) (s t : Str) :
    lexLe (Nat.digitChar a :: s) (Nat.digitChar b :: t) =
      if a < b then true else if a = b then lexLe s t else false := by
  simp only [lexLe, digitChar_toNat a ha, digitChar_toNat b hb]
  by_cases h1 : a < b
  · simp [h1]
  · by_cases h2 : a = b
    · subst h2; simp
    · have h3 : ¬ Nat.digitChar a = Nat.digitChar b := fun h => h2 (digitChar_inj a b ha hb h)
      simp [h1, h2, h3]

theorem lexLe_fixed (w : Nat) : ∀ (a b : Nat) (s t : Str), a < 10 ^ w → b < 10 ^ w →
    lexLe (fixed w a ++ s) (fixed w b ++ t) =
      if a < b then true else if a = b then lexLe s t else false := by
  induction w with
  | zero =>
    intro a b s t ha hb
    have ha0 : a = 0 := by simpa using ha
    have hb0 : b = 0 := by simpa using hb
    subst ha0; subst hb0
    simp [fixed]
  | succ w ih =>
    intro a b s t ha hb
    have ha1 : a / 10 < 10 ^ w := by
      apply Nat.div_lt_of_lt_mul; rw [pow_succ] at ha; omega
    have hb1 : b / 10 < 10 ^ w := by
      apply Nat.div_lt_of_lt_mul; rw [pow_succ] at hb; omega
    simp only [fixed, List.append_assoc, List.singleton_append]
    rw [ih (a / 10) (b / 10) _ _ ha1 hb1, lexLe_digit _ _ (Nat.mod_lt _ (by norm_num))
      (Nat.mod_lt _ (by norm_num))]
    by_cases h1 : a < b
    · by_cases h2 : a / 10 < b / 10
      · simp [h1, h2]
      · have h3 : a / 10 = b / 10 := by omega
        have h4 : a % 10 < b % 10 := by omega
        simp [h1, h2, h3, h4]
    · by_cases h2 : a = b
      · subst h2; simp
      · have h3 : ¬ a / 10 < b / 10 := by omega
        by_cases h4 : a / 10 = b / 10
        · have h5 : ¬ a % 10 < b % 10 := by omega
          have h6 : ¬ a % 10 = b % 10 := by omega
          simp [h1, h2, h3, h4, h5, h6]
        · simp [h1, h2, h3, h4]

/-! ## The calendar -/

theorem century_bounds (d : Int) (h0 : 0 ≤ d) (h1 : d ≤ 146096) :
    0 ≤ (century d).2 ∧ (century d).2 ≤ 36524 := by
  simp only [century]; omega

theorem century_step (d : Int) (h0 : 0 ≤ d) (h1 : d < 146096) :
    ((century (d + 1)).1 = (century d).1 ∧ (century (d + 1)).2 = (century d).2 + 1) ∨
    ((century (d + 1)).1 = (century d).1 + 1 ∧ (century (d + 1)).2 = 0 ∧
      (century d).2 = 36523) := by
  simp only [century]; omega

theorem quad_bounds (d : Int) : 0 ≤ (quad d).2 ∧ (quad d).2 ≤ 1460 := by
  simp only [quad]; omega

theorem quad_step (d : Int) :
    ((quad (d + 1)).1 = (quad d).1 ∧ (quad (d + 1)).2 = (quad d).2 + 1) ∨
    ((quad (d + 1)).1 = (quad d).1 + 1 ∧ (quad (d + 1)).2 = 0 ∧ (quad d).2 = 1460) := by
  simp only [quad]; omega

theorem annual_bounds (d : Int) (h0 : 0 ≤ d) (h1 : d ≤ 1460) :
    0 ≤ (annual d).2 ∧ (annual d).2 ≤ 365 := by
  simp only [annual]; omega

theorem annual_step (d : Int) (h0 : 0 ≤ d) (h1 : d < 1460) :
    ((annual (d + 1)).1 = (annual d).1 ∧ (annual (d + 1)).2 = (annual d).2 + 1) ∨
    ((annual (d + 1)).1 = (annual d).1 + 1 ∧ (annual (d + 1)).2 = 0 ∧
      (annual d).2 = 364) := by
  simp only [annual]; omega

theorem yearDay_bounds (z : Int) : 0 ≤ (yearDay z).2 ∧ (yearDay z).2 ≤ 365 := by
  simp only [yearDay]
  have h1 := century_bounds ((z + 719468) % 146097) (by omega) (by omega)
  have h2 := quad_bounds (century ((z + 719468) % 146097)).2
  exact annual_bounds _ h2.1 h2.2

/-- From one day to the next the day of the year grows by one, or a new year starts
after day 364 or 365. -/
theorem yearDay_step (z : Int) :
    ((yearDay (z + 1)).1 = (yearDay z).1 ∧ (yearDay (z + 1)).2 = (yearDay z).2 + 1) ∨
    ((yearDay (z + 1)).1 = (yearDay z).1 + 1 ∧ (yearDay (z + 1)).2 = 0 ∧
      364 ≤ (yearDay z).2) := by
  simp only [yearDay]
  have hz : z + 1 + 719468 = (z + 719468) + 1 := by ring
  rw [hz]
  generalize z + 719468 = w
  have hw : ((w + 1) / 146097 = w / 146097 ∧ (w + 1) % 146097 = w % 146097 + 1 ∧
        w % 146097 < 146096) ∨
      ((w + 1) / 146097 = w / 146097 + 1 ∧ (w + 1) % 146097 = 0 ∧
        w % 146097 = 146096) := by omega
  have hd0 : 0 ≤ w % 146097 := by omega
  rcases hw with ⟨e1, e2, e3⟩ | ⟨e1, e2, e3⟩
  · rw [e1, e2]
    generalize w % 146097 = d at *
    have cb := century_bounds d hd0 (by omega)
    have cb1 := century_bounds (d + 1) (by omega) (by omega)
    rcases century_step d hd0 e3 with ⟨c1, c2⟩ | ⟨c1, c2, c3⟩
    · rw [c1, c2]
      generalize (century d).2 = d2 at *
      have qb := quad_bounds d2
      have qb1 := quad_bounds (d2 + 1)
      rcases quad_step d2 with ⟨q1, q2⟩ | ⟨q1, q2, q3⟩
      · rw [q1, q2]
        generalize (quad d2).2 = d3 at *
        have ab := annual_bounds d3 qb.1 qb.2
        rcases annual_step d3 qb.1 (by omega) with ⟨a1, a2⟩ | ⟨a1, a2, a3⟩
        · left; omega
        · right; omega
      · rw [q1, q2, q3]
        right; simp [annual]; omega
    · rw [c1, c2, c3]
      right; simp [annual, quad]; omega
  · rw [e1, e2, e3]
    right; simp [annual, quad, century]; omega

theorem civil_bounds (z : Int) :
    1 ≤ (civil z).2.1 ∧ (civil z).2.1 ≤ 12 ∧ 1 ≤ (civil z).2.2 ∧ (civil z).2.2 ≤ 31 := by
  have h := yearDay_bounds z
  simp only [civil]
  generalize (yearDay z).2 = doy at *
  split <;> omega

theorem civil_step (z : Int) :
    (civil z).1 * 10000 + (civil z).2.1 * 100 + (civil z).2.2 <
      (civil (z + 1)).1 * 10000 + (civil (z + 1)).2.1 * 100 + (civil (z + 1)).2.2 := by
  have h := yearDay_bounds z
  have hs := yearDay_step z
  simp only [civil]
  generalize (yearDay z).2 = doy at *
  generalize (yearDay z).1 = y at *
  rcases hs with ⟨h1, h2⟩ | ⟨h1, h2, h3⟩
  · rw [h1, h2]
    have hb := yearDay_bounds (z + 1)
    rw [h2] at hb
    split <;> split <;> split <;> split <;> omega
  · rw [h1, h2]
    split <;> split <;> split <;> split <;> omega

/-- The calendar at known dates: the Unix epoch and the day before, a leap day in a
year divisible by 400, the application epoch, the days around the end of February in
1900 and 2100 (no leap years), and the ends of the four-digit years. -/
theorem civil_known_dates :
    civil 0 = (1970, 1, 1) ∧ civil (-1) = (1969, 12, 31) ∧ civil 11016 = (2000, 2, 29) ∧
    civil 11017 = (2000, 3, 1) ∧ civil 11323 = (2001, 1, 1) ∧
    civil (-25509) = (1900, 2, 28) ∧ civil (-25508) = (1900, 3, 1) ∧
    civil 47540 = (2100, 2, 28) ∧ civil 47541 = (2100, 3, 1) ∧
    civil 19358 = (2023, 1, 1) ∧ civil 19782 = (2024, 2, 29) ∧
    civil (-719162) = (1, 1, 1) ∧ civil (-719528) = (0, 1, 1) ∧
    civil 2932896 = (9999, 12, 31) ∧ civil 2932897 = (10000, 1, 1) := by
  decide

/-- The date, read as the number year * 10000 + month * 100 + day, grows with the day. -/
theorem civil_mono (a b : Int) (h : a ≤ b) :
    (civil a).1 * 10000 + (civil a).2.1 * 100 + (civil a).2.2 ≤
      (civil b).1 * 10000 + (civil b).2.1 * 100 + (civil b).2.2 := by
  refine @Int.le_induction (fun b => (civil a).1 * 10000 + (civil a).2.1 * 100 + (civil a).2.2 ≤
      (civil b).1 * 10000 + (civil b).2.1 * 100 + (civil b).2.2) a (le_refl _) ?_ b h
  intro n _ ih
  exact le_trans ih (le_of_lt (civil_step n))

theorem civil_strict (a b : Int) (h : a < b) :
    (civil a).1 * 10000 + (civil a).2.1 * 100 + (civil a).2.2 <
      (civil b).1 * 10000 + (civil b).2.1 * 100 + (civil b).2.2 :=
  lt_of_lt_of_le (civil_step a) (civil_mono (a + 1) b h)

/-- Days from 0000-01-01 to 9999-12-31 have a year of four digits. -/
theorem civil_year_range (z : Int) (h0 : -719528 ≤ z) (h1 : z ≤ 2932896) :
    0 ≤ (civil z).1 ∧ (civil z).1 ≤ 9999 := by
  have hb := civil_bounds z
  have hlo := civil_mono (-719528) z h0
  have hhi := civil_mono z 2932896 h1
  have e1 : civil (-719528) = (0, 1, 1) := by decide
  have e2 : civil 2932896 = (9999, 12, 31) := by decide
  rw [e1] at hlo
  rw [e2] at hhi
  simp only at hlo hhi
  omega

/-! ## `time.Unix`, `Time.Add`, `Time.Format` -/

theorem tdiv_eq (a b : Int) (hb : 0 < b) :
    Int.tdiv a b = if 0 ≤ a then a / b else -((-a) / b) := by
  split
  · rename_i h
    exact Int.tdiv_eq_ediv h (le_of_lt hb)
  · rename_i h
    have h1 : a = -(-a) := by omega
    rw [h1, Int.neg_tdiv, Int.tdiv_eq_ediv (by omega) (le_of_lt hb)]
    simp

theorem tmod_eq (a b : Int) (hb : 0 < b) :
    Int.tmod a b = if 0 ≤ a then a % b else -((-a) % b) := by
  rw [Int.tmod_def, tdiv_eq a b hb]
  split
  · rw [Int.emod_def]
  · rw [Int.emod_def]; ring

/-- The function `time.Unix` keeps the instant and normalises the nanoseconds. -/
theorem Unix_spec (l : Location) (sec nsec : Int) :
    (Unix l sec nsec).sec * 1000000000 + (Unix l sec nsec).nsec = sec * 1000000000 + nsec ∧
    0 ≤ (Unix l sec nsec).nsec ∧ (Unix l sec nsec).nsec < 1000000000 ∧
    (Unix l sec nsec).loc = l := by
  simp only [Unix, tdiv_eq nsec 1000000000 (by norm_num)]
  split_ifs <;> dsimp only <;> exact ⟨by omega, by omega, by omega, rfl⟩

/-- The method `Time.Add` moves the instant by the duration. -/
theorem Add_spec (t : Time) (d : Int) (h0 : 0 ≤ t.nsec) (h1 : t.nsec < 1000000000) :
    (t.Add d).sec * 1000000000 + (t.Add d).nsec = t.sec * 1000000000 + t.nsec + d ∧
    0 ≤ (t.Add d).nsec ∧ (t.Add d).nsec < 1000000000 ∧ (t.Add d).loc = t.loc := by
  simp only [Time.Add, tdiv_eq d 1000000000 (by norm_num), tmod_eq d 1000000000 (by norm_num)]
  split_ifs <;> dsimp only <;> exact ⟨by omega, by omega, by omega, rfl⟩

theorem take_three_nanos (n : Int) (h0 : 0 ≤ n) (h1 : n < 1000000000) :
    (appendInt n 9).take 3 = appendInt (n / 1000000) 3 := by
  obtain ⟨k, rfl⟩ : ∃ k : Nat, n = (k : Int) := ⟨n.toNat, by omega⟩
  have hk : k < 1000000000 := by omega
  rw [appendInt_fixed (k : Int) 9 (by norm_num) (by norm_num) h0 (by norm_num; omega),
    appendInt_fixed ((k : Int) / 1000000) 3 (by norm_num) (by norm_num) (by omega)
      (by norm_num; omega)]
  have e1 : (k : Int).toNat = k := by simp
  have e2 : ((k : Int) / 1000000).toNat = k / 1000000 := by omega
  rw [e1, e2]
  simp only [fixed, List.nil_append, List.append_assoc, List.singleton_append, List.take_succ_cons,
    List.take_zero, List.cons_append]
  have a1 : k / 10 / 10 / 10 / 10 / 10 / 10 / 10 / 10 % 10 = k / 1000000 / 10 / 10 % 10 := by omega
  have a2 : k / 10 / 10 / 10 / 10 / 10 / 10 / 10 % 10 = k / 1000000 / 10 % 10 := by omega
  have a3 : k / 10 / 10 / 10 / 10 / 10 / 10 % 10 = k / 1000000 % 10 := by omega
  rw [a1, a2, a3]

/-- The call `Format("20060102150405.000")` is the calendar rendering, on the clock of the
location of `t`, of the instant of `t` cut to whole milliseconds. -/
theorem Format_eq (t : Time) (h0 : 0 ≤ t.nsec) (h1 : t.nsec < 1000000000) :
    t.Format = calendarStamp (t.loc.offset t.sec) ((t.sec * 1000000000 + t.nsec) / 1000000) := by
  simp only [Time.Format, calendarStamp]
  generalize t.loc.offset t.sec = o
  generalize t.sec = s at *
  generalize t.nsec = n at *
  rw [take_three_nanos n h0 h1]
  have e1 : ((s * 1000000000 + n) / 1000000 + o * 1000) / 86400000 = (s + o) / 86400 := by omega
  have e2 : ((s * 1000000000 + n) / 1000000 + o * 1000) % 86400000 / 3600000 =
      (s + o) % 86400 / 3600 := by omega
  have e3 : ((s * 1000000000 + n) / 1000000 + o * 1000) % 86400000 / 60000 % 60 =
      (s + o) % 86400 % 3600 / 60 := by omega
  have e4 : ((s * 1000000000 + n) / 1000000 + o * 1000) % 86400000 / 1000 % 60 =
      (s + o) % 86400 % 60 := by omega
  have e5 : ((s * 1000000000 + n) / 1000000 + o * 1000) % 86400000 % 1000 = n / 1000000 := by
    omega
  rw [e1, e2, e3, e4, e5]

/-- The clock fields of a millisecond count within a day. -/
theorem clock_fields (r : Int) (h0 : 0 ≤ r) (h1 : r < 86400000) :
    ∃ h mi s f : Nat, r / 3600000 = (h : Int) ∧ r / 60000 % 60 = (mi : Int) ∧
      r / 1000 % 60 = (s : Int) ∧ r % 1000 = (f : Int) ∧
      r = 3600000 * (h : Int) + 60000 * (mi : Int) + 1000 * (s : Int) + (f : Int) ∧
      h < 24 ∧ mi < 60 ∧ s < 60 ∧ f < 1000 := by
  refine ⟨(r / 3600000).toNat, (r / 60000 % 60).toNat, (r / 1000 % 60).toNat, (r % 1000).toNat,
    ?_, ?_, ?_, ?_, ?_, ?_, ?_, ?_, ?_⟩ <;> omega

/-- Within years 0000 to 9999 the rendering is made of fixed-width fields. -/
theorem calendarStamp_fields (o ms : Int) (h0 : -62167219200000 ≤ ms + o * 1000)
    (h1 : ms + o * 1000 < 253402300800000) :
    ∃ y m d h mi s f : Nat,
      calendarStamp o ms = fixed 4 y ++ (fixed 2 m ++ (fixed 2 d ++ (fixed 2 h ++
        (fixed 2 mi ++ (fixed 2 s ++ '.' :: (fixed 3 f ++ [])))))) ∧
      (civil ((ms + o * 1000) / 86400000)).1 = (y : Int) ∧
      (civil ((ms + o * 1000) / 86400000)).2.1 = (m : Int) ∧
      (civil ((ms + o * 1000) / 86400000)).2.2 = (d : Int) ∧
      (ms + o * 1000) % 86400000 =
        3600000 * (h : Int) + 60000 * (mi : Int) + 1000 * (s : Int) + (f : Int) ∧
      y < 10000 ∧ m < 13 ∧ d < 32 ∧ h < 24 ∧ mi < 60 ∧ s < 60 ∧ f < 1000 := by
  have hy := civil_year_range ((ms + o * 1000) / 86400000) (by omega) (by omega)
  have hb := civil_bounds ((ms + o * 1000) / 86400000)
  obtain ⟨h, mi, s, f, e1, e2, e3, e4, e5, b1, b2, b3, b4⟩ :=
    clock_fields ((ms + o * 1000) % 86400000) (by omega) (by omega)
  generalize hc : civil ((ms + o * 1000) / 86400000) = c at hy hb
  obtain ⟨y, ey⟩ : ∃ y : Nat, c.1 = (y : Int) := ⟨c.1.toNat, by omega⟩
  obtain ⟨m, em⟩ : ∃ m : Nat, c.2.1 = (m : Int) := ⟨c.2.1.toNat, by omega⟩
  obtain ⟨d, ed⟩ : ∃ d : Nat, c.2.2 = (d : Int) := ⟨c.2.2.toNat, by omega⟩
  refine ⟨y, m, d, h, mi, s, f, ?_, ey, em, ed, e5, by omega, by omega, by omega, b1, b2, b3,
    b4⟩
  simp only [calendarStamp, hc, e1, e2, e3, e4, ey, em, ed]
  rw [appendInt_fixed _ 4 (by norm_num) (by norm_num) (by omega) (by norm_num; omega),
    appendInt_fixed _ 2 (by norm_num) (by norm_num) (by omega) (by norm_num; omega),
    appendInt_fixed _ 2 (by norm_num) (by norm_num) (by omega) (by norm_num; omega),
    appendInt_fixed _ 2 (by norm_num) (by norm_num) (by omega) (by norm_num; omega),
    appendInt_fixed _ 2 (by norm_num) (by norm_num) (by omega) (by norm_num; omega),
    appendInt_fixed _ 2 (by norm_num) (by norm_num) (by omega) (by norm_num; omega),
    appendInt_fixed _ 3 (by norm_num) (by norm_num) (by omega) (by norm_num; omega)]
  simp only [List.append_assoc, List.append_nil, Int.toNat_ofNat]

theorem calendarStamp_length (o ms : Int) (h0 : -62167219200000 ≤ ms + o * 1000)
    (h1 : ms + o * 1000 < 253402300800000) : (calendarStamp o ms).length = 18 := by
  obtain ⟨y, m, d, h, mi, s, f, e, _⟩ := calendarStamp_fields o ms h0 h1
  rw [e]
  simp [fixed_length]

theorem lexLe_dot (s t : Str) : lexLe ('.' :: s) ('.' :: t) = lexLe s t := by
  simp [lexLe]

/-- Fields compared one after the other, as the strings are. -/
theorem lexLe_fields (y m d h mi s f y2 m2 d2 h2 mi2 s2 f2 : Nat)
    (hy : y < 10000) (hm : m < 100) (hd : d < 100) (hh : h < 100) (hmi : mi < 100)
    (hs : s < 100) (hf : f < 1000)
    (hy2 : y2 < 10000) (hm2 : m2 < 100) (hd2 : d2 < 100) (hh2 : h2 < 100) (hmi2 : mi2 < 100)
    (hs2 : s2 < 100) (hf2 : f2 < 1000)
    (hle : y < y2 ∨ (y = y2 ∧ (m < m2 ∨ (m = m2 ∧ (d < d2 ∨ (d = d2 ∧ (h < h2 ∨ (h = h2 ∧
      (mi < mi2 ∨ (mi = mi2 ∧ (s < s2 ∨ (s = s2 ∧ f ≤ f2)))))))))))) :
    lexLe (fixed 4 y ++ (fixed 2 m ++ (fixed 2 d ++ (fixed 2 h ++
        (fixed 2 mi ++ (fixed 2 s ++ '.' :: (fixed 3 f ++ [])))))))
      (fixed 4 y2 ++ (fixed 2 m2 ++ (fixed 2 d2 ++ (fixed 2 h2 ++
        (fixed 2 mi2 ++ (fixed 2 s2 ++ '.' :: (fixed 3 f2 ++ []))))))) = true := by
  rw [lexLe_fixed 4 _ _ _ _ (by norm_num; omega) (by norm_num; omega),
    lexLe_fixed 2 _ _ _ _ (by norm_num; omega) (by norm_num; omega),
    lexLe_fixed 2 _ _ _ _ (by norm_num; omega) (by norm_num; omega),
    lexLe_fixed 2 _ _ _ _ (by norm_num; omega) (by norm_num; omega),
    lexLe_fixed 2 _ _ _ _ (by norm_num; omega) (by norm_num; omega),
    lexLe_fixed 2 _ _ _ _ (by norm_num; omega) (by norm_num; omega),
    lexLe_dot,
    lexLe_fixed 3 _ _ _ _ (by norm_num; omega) (by norm_num; omega)]
  rcases hle with h | ⟨e, h | ⟨e2, h | ⟨e3, h | ⟨e4, h | ⟨e5, h | ⟨e6, h⟩⟩⟩⟩⟩⟩
  · rw [if_pos h]
  · rw [if_neg (by omega), if_pos e, if_pos h]
  · rw [if_neg (by omega), if_pos e, if_neg (by omega), if_pos e2, if_pos h]
  · rw [if_neg (by omega), if_pos e, if_neg (by omega), if_pos e2, if_neg (by omega), if_pos e3,
      if_pos h]
  · rw [if_neg (by omega), if_pos e, if_neg (by omega), if_pos e2, if_neg (by omega), if_pos e3,
      if_neg (by omega), if_pos e4, if_pos h]
  · rw [if_neg (by omega), if_pos e, if_neg (by omega), if_pos e2, if_neg (by omega), if_pos e3,
      if_neg (by omega), if_pos e4, if_neg (by omega), if_pos e5, if_pos h]
  · rw [if_neg (by omega), if_pos e, if_neg (by omega), if_pos e2, if_neg (by omega), if_pos e3,
      if_neg (by omega), if_pos e4, if_neg (by omega), if_pos e5, if_neg (by omega), if_pos e6]
    rcases lt_or_eq_of_le h with h7 | h7
    · rw [if_pos h7]
    · rw [if_neg (by omega), if_pos h7]; rfl

/-- On one clock and within years 0000 to 9999, a later instant never renders to an
earlier string. -/
theorem calendarStamp_mono (o a b : Int) (hab : a ≤ b)
    (h0 : -62167219200000 ≤ a + o * 1000) (h1 : b + o * 1000 < 253402300800000) :
    lexLe (calendarStamp o a) (calendarStamp o b) = true := by
  obtain ⟨y, m, d, h, mi, s, f, e, ey, em, ed, er, by1, bm, bd, bh, bmi, bs, bf⟩ :=
    calendarStamp_fields o a h0 (by omega)
  obtain ⟨y2, m2, d2, h2, mi2, s2, f2, e2, ey2, em2, ed2, er2, by2, bm2, bd2, bh2, bmi2, bs2,
    bf2⟩ := calendarStamp_fields o b (by omega) h1
  rw [e, e2]
  apply lexLe_fields <;> try omega
  have hday : (a + o * 1000) / 86400000 ≤ (b + o * 1000) / 86400000 := by omega
  rcases lt_or_eq_of_le hday with hlt | heq
  · have hk := civil_strict _ _ hlt
    rw [ey, em, ed, ey2, em2, ed2] at hk
    clear e e2 ey em ed ey2 em2 ed2 er er2 hday hlt
    omega
  · rw [heq] at ey em ed
    have hr : (a + o * 1000) % 86400000 ≤ (b + o * 1000) % 86400000 := by omega
    rw [er, er2] at hr
    have hy : (y : Int) = y2 := by rw [← ey, ← ey2]
    have hm : (m : Int) = m2 := by rw [← em, ← em2]
    have hd : (d : Int) = d2 := by rw [← ed, ← ed2]
    clear e e2 ey em ed ey2 em2 ed2 er er2 hday heq
    omega

/-! ## Numeric timestamps -/

theorem tdiv_floor_ceil (q : ℚ) : Int.tdiv q.num q.den = if 0 ≤ q then ⌊q⌋ else ⌈q⌉ := by
  have hden : (0 : Int) < q.den := by exact_mod_cast q.den_pos
  rw [tdiv_eq q.num q.den hden]
  by_cases h : 0 ≤ q
  · rw [if_pos h, if_pos (Rat.num_nonneg.mpr h), Rat.floor_def]
  · rw [if_neg h, if_neg (fun h2 => h (Rat.num_nonneg.mp h2))]
    have h3 : ⌈q⌉ = -⌊-q⌋ := by rw [Int.floor_neg]; simp
    rw [h3, Rat.floor_def]
    simp

/-- Within the range of `int64` the conversion cuts the fraction off, towards zero. -/
theorem int64_eq (q : ℚ) (hlo : -9223372036854775808 ≤ q) (hhi : q < 9223372036854775808) :
    int64 q = if 0 ≤ q then ⌊q⌋ else ⌈q⌉ := by
  have h1 : (-9223372036854775808 : Int) ≤ ⌈q⌉ := by
    have : ((-9223372036854775808 : Int) : ℚ) ≤ (⌈q⌉ : ℚ) := by
      push_cast
      linarith [Int.le_ceil q]
    exact_mod_cast this
  have h2 : ⌊q⌋ < (9223372036854775808 : Int) := by
    have : (⌊q⌋ : ℚ) < ((9223372036854775808 : Int) : ℚ) := by
      push_cast
      linarith [Int.floor_le q]
    exact_mod_cast this
  have h3 : ⌊q⌋ ≤ ⌈q⌉ := Int.floor_le_ceil q
  rw [int64, tdiv_floor_ceil]
  by_cases h : 0 ≤ q
  · have h4 : 0 ≤ ⌊q⌋ := Int.floor_nonneg.mpr h
    simp only [if_pos h]
    rw [if_pos ⟨by omega, by omega⟩]
  · have h4 : ⌈q⌉ ≤ 0 := Int.ceil_le.mpr (by push_cast; linarith)
    simp only [if_neg h]
    rw [if_pos ⟨by omega, by omega⟩]

theorem int64_intCast (k : Int) (hlo : -9223372036854775808 ≤ k) (hhi : k < 9223372036854775808) :
    int64 (k : ℚ) = k := by
  rw [int64_eq _ (by exact_mod_cast hlo) (by exact_mod_cast hhi)]
  split <;> simp

theorem int64_ge (q : ℚ) : -9223372036854775808 ≤ int64 q := by
  rw [int64]
  split
  · rename_i h; exact h.1
  · exact le_refl _

/-- Below the upper end of its range the conversion keeps the order. -/
theorem int64_mono (x y : ℚ) (h : x ≤ y) (hy : y < 9223372036854775808) :
    int64 x ≤ int64 y := by
  by_cases hx : -9223372036854775808 ≤ x
  · rw [int64_eq x hx (lt_of_le_of_lt h hy), int64_eq y (le_trans hx h) hy]
    by_cases hx0 : 0 ≤ x
    · rw [if_pos hx0, if_pos (le_trans hx0 h)]
      exact Int.floor_mono h
    · rw [if_neg hx0]
      by_cases hy0 : 0 ≤ y
      · rw [if_pos hy0]
        have h1 : ⌈x⌉ ≤ 0 := Int.ceil_le.mpr (by push_cast; linarith)
        have h2 : 0 ≤ ⌊y⌋ := Int.floor_nonneg.mpr hy0
        omega
      · rw [if_neg hy0]
        exact Int.ceil_mono h
  · have hx2 : int64 x = -9223372036854775808 := by
      rw [int64, tdiv_floor_ceil]
      have hneg : ¬ 0 ≤ x := fun h0 => hx (le_trans (by norm_num) h0)
      simp only [if_neg hneg]
      by_cases hc : (-9223372036854775808 : Int) ≤ ⌈x⌉
      · rw [if_pos]
        · have h5 : ⌈x⌉ ≤ (-9223372036854775808 : Int) := Int.ceil_le.mpr (by
            push_cast; linarith)
          omega
        · constructor
          · exact hc
          · have h5 : ⌈x⌉ ≤ (-9223372036854775808 : Int) := Int.ceil_le.mpr (by
              push_cast; linarith)
            omega
      · rw [if_neg (fun hh => hc hh.1)]
    rw [hx2]
    exact int64_ge y

/-! ## The `float64` product -/

theorem roundHalfEven_intCast (n : Int) : roundHalfEven (n : ℚ) = n := by
  simp [roundHalfEven]

theorem roundHalfEven_bounds (s : ℚ) : ⌊s⌋ ≤ roundHalfEven s ∧ roundHalfEven s ≤ ⌊s⌋ + 1 := by
  unfold roundHalfEven
  split_ifs <;> omega

theorem roundHalfEven_mono (s u : ℚ) (h : s ≤ u) : roundHalfEven s ≤ roundHalfEven u := by
  have h1 := roundHalfEven_bounds s
  have h2 := roundHalfEven_bounds u
  have h3 : ⌊s⌋ ≤ ⌊u⌋ := Int.floor_mono h
  by_cases h4 : ⌊s⌋ = ⌊u⌋
  · unfold roundHalfEven
    rw [← h4]
    generalize ⌊s⌋ = k at *
    split_ifs <;> first | omega | (exfalso; linarith)
  · omega

theorem two_zpow (n : Int) (h : 0 ≤ n) : ((2 : ℚ) ^ n) = (((2 : Int) ^ n.toNat : Int) : ℚ) := by
  obtain ⟨k, rfl⟩ := Int.eq_ofNat_of_zero_le h
  rw [zpow_natCast]
  simp

/-- Rounding to the multiples of `2 ^ e` keeps the order. -/
theorem grid_mono (e : Int) (a b : ℚ) (h : a ≤ b) :
    (roundHalfEven (a / 2 ^ e) : ℚ) * 2 ^ e ≤ (roundHalfEven (b / 2 ^ e) : ℚ) * 2 ^ e := by
  have hp : (0 : ℚ) < 2 ^ e := by positivity
  have h1 : a / 2 ^ e ≤ b / 2 ^ e := div_le_div_of_nonneg_right h (le_of_lt hp)
  have h2 : (roundHalfEven (a / 2 ^ e) : ℚ) ≤ (roundHalfEven (b / 2 ^ e) : ℚ) := by
    exact_mod_cast roundHalfEven_mono _ _ h1
  exact mul_le_mul_of_nonneg_right h2 (le_of_lt hp)

/-- Rounding to the multiples of `2 ^ e` leaves a multiple of a power of two that is not
smaller in place. -/
theorem grid_fix (e k m : Int) (h : e ≤ k) :
    (roundHalfEven (((m : ℚ) * 2 ^ k) / 2 ^ e) : ℚ) * 2 ^ e = (m : ℚ) * 2 ^ k := by
  have hp : (0 : ℚ) < 2 ^ e := by positivity
  have h1 : ((m : ℚ) * 2 ^ k) / 2 ^ e = (m : ℚ) * 2 ^ (k - e) := by
    rw [zpow_sub₀ (by norm_num : (2 : ℚ) ≠ 0)]
    ring
  have h2 : ((m : ℚ) * 2 ^ k) / 2 ^ e = ((m * (2 : Int) ^ (k - e).toNat : Int) : ℚ) := by
    rw [h1, two_zpow (k - e) (by omega)]
    push_cast
    ring
  rw [h2, roundHalfEven_intCast, ← h2]
  field_simp

theorem roundFloat64_nonneg (q : ℚ) (h : 0 ≤ q) : 0 ≤ roundFloat64 q := by
  have h1 := grid_mono (ulpExp q) 0 q h
  have h2 := grid_fix (ulpExp q) (ulpExp q) 0 (le_refl _)
  simp only [Int.cast_zero, zero_mul] at h2
  rw [h2] at h1
  exact h1

theorem roundFloat64_nonpos (q : ℚ) (h : q ≤ 0) : roundFloat64 q ≤ 0 := by
  have h1 := grid_mono (ulpExp q) q 0 h
  have h2 := grid_fix (ulpExp q) (ulpExp q) 0 (le_refl _)
  simp only [Int.cast_zero, zero_mul] at h2
  rw [h2] at h1
  exact h1

theorem log_le_self (r : ℚ) (h : 0 < r) : (2 : ℚ) ^ Int.log 2 r ≤ r := by
  have := Int.zpow_log_le_self (by norm_num : 1 < 2) h
  simpa using this

theorem lt_log_succ (r : ℚ) : r < (2 : ℚ) ^ (Int.log 2 r + 1) := by
  have := Int.lt_zpow_succ_log_self (by norm_num : 1 < 2) r
  simpa using this

/-- Rounding to `float64` keeps the order. -/
theorem roundFloat64_mono (a b : ℚ) (h : a ≤ b) : roundFloat64 a ≤ roundFloat64 b := by
  by_cases ha : a ≤ 0
  · by_cases hb : 0 ≤ b
    · exact le_trans (roundFloat64_nonpos a ha) (roundFloat64_nonneg b hb)
    · -- both negative
      have hb0 : b < 0 := lt_of_not_le hb
      have ha0 : a < 0 := lt_of_le_of_lt h hb0
      have hab : |b| ≤ |a| := by
        rw [abs_of_neg hb0, abs_of_neg ha0]; linarith
      have hbp : 0 < |b| := abs_pos.mpr (ne_of_lt hb0)
      have hL : Int.log 2 |b| ≤ Int.log 2 |a| := Int.log_mono_right hbp hab
      by_cases he : ulpExp a = ulpExp b
      · unfold roundFloat64
        rw [he]
        exact grid_mono _ _ _ h
      · have he2 : ulpExp b < ulpExp a := by
          unfold ulpExp at he ⊢
          omega
        have hea : ulpExp a = Int.log 2 |a| - 52 := by
          unfold ulpExp at he2 ⊢
          omega
        have hLL : Int.log 2 |b| + 1 ≤ Int.log 2 |a| := by
          unfold ulpExp at he2
          omega
        have hB1 : a ≤ ((-1 : Int) : ℚ) * 2 ^ Int.log 2 |a| := by
          have := log_le_self |a| (abs_pos.mpr (ne_of_lt ha0))
          rw [abs_of_neg ha0] at this
          rw [abs_of_neg ha0]
          push_cast
          linarith
        have hB2 : ((-1 : Int) : ℚ) * 2 ^ Int.log 2 |a| ≤ b := by
          have h1 := lt_log_succ |b|
          have h2 : (2 : ℚ) ^ (Int.log 2 |b| + 1) ≤ 2 ^ Int.log 2 |a| :=
            zpow_le_zpow_right₀ (by norm_num) hLL
          have h3 : |b| < 2 ^ Int.log 2 |a| := lt_of_lt_of_le h1 h2
          rw [abs_of_neg hb0] at h3
          push_cast
          linarith
        have g1 := grid_mono (ulpExp a) _ _ hB1
        have g2 := grid_mono (ulpExp b) _ _ hB2
        rw [grid_fix _ _ _ (by omega)] at g1
        rw [grid_fix _ _ _ (by omega)] at g2
        exact le_trans g1 g2
  · have ha0 : 0 < a := lt_of_not_le ha
    have hb0 : 0 < b := lt_of_lt_of_le ha0 h
    have hL : Int.log 2 |a| ≤ Int.log 2 |b| := by
      rw [abs_of_pos ha0, abs_of_pos hb0]
      exact Int.log_mono_right ha0 h
    by_cases he : ulpExp a = ulpExp b
    · unfold roundFloat64
      rw [he]
      exact grid_mono _ _ _ h
    · have he2 : ulpExp a < ulpExp b := by
        unfold ulpExp at he ⊢
        omega
      have heb : ulpExp b = Int.log 2 |b| - 52 := by
        unfold ulpExp at he2 ⊢
        omega
      have hLL : Int.log 2 |a| + 1 ≤ Int.log 2 |b| := by
        unfold ulpExp at he2
        omega
      have hB1 : a ≤ ((1 : Int) : ℚ) * 2 ^ Int.log 2 |b| := by
        have h1 := lt_log_succ |a|
        have h2 : (2 : ℚ) ^ (Int.log 2 |a| + 1) ≤ 2 ^ Int.log 2 |b| :=
          zpow_le_zpow_right₀ (by norm_num) hLL
        rw [abs_of_pos ha0] at h1 h2
        push_cast
        linarith
      have hB2 : ((1 : Int) : ℚ) * 2 ^ Int.log 2 |b| ≤ b := by
        have := log_le_self |b| (abs_pos.mpr (ne_of_gt hb0))
        push_cast
        rw [abs_of_pos hb0] at this ⊢
        linarith
      have g1 := grid_mono (ulpExp a) _ _ hB1
      have g2 := grid_mono (ulpExp b) _ _ hB2
      rw [grid_fix _ _ _ (by omega)] at g1
      rw [grid_fix _ _ _ (by omega)] at g2
      exact le_trans g1 g2

/-- Whole numbers up to 1000000000 in size are `float64` values. -/
theorem roundFloat64_intCast (n : Int) (h0 : -1000000000 ≤ n) (h1 : n ≤ 1000000000) :
    roundFloat64 (n : ℚ) = n := by
  have hL : Int.log 2 |(n : ℚ)| < 30 := by
    by_cases hn : n = 0
    · rw [hn]
      simp
    · have hpos : 0 < |(n : ℚ)| := abs_pos.mpr (by exact_mod_cast hn)
      have h2 : |(n : ℚ)| < ((2 : ℕ) : ℚ) ^ (30 : Int) := by
        rw [abs_lt]
        have e1 : ((-1000000000 : Int) : ℚ) ≤ (n : ℚ) := by exact_mod_cast h0
        have e2 : (n : ℚ) ≤ ((1000000000 : Int) : ℚ) := by exact_mod_cast h1
        push_cast at e1 e2
        norm_num
        constructor <;> linarith
      exact (Int.lt_zpow_iff_log_lt (by norm_num : 1 < 2) hpos).mp h2
  have he : ulpExp (n : ℚ) ≤ 0 := by
    unfold ulpExp
    omega
  have h := grid_fix (ulpExp (n : ℚ)) 0 n he
  simp only [zpow_zero, mul_one] at h
  exact h

theorem ieeeMul_faithful : Faithful ieeeMul :=
  ⟨fun x y h => roundFloat64_mono _ _ (mul_le_mul_of_nonneg_right h (by norm_num)),
    fun x n h h0 h1 => by
      unfold ieeeMul
      rw [h]
      exact roundFloat64_intCast n h0 h1⟩

/-! ## The computed instant -/

/-- At a whole number of milliseconds the code computes exactly that instant. -/
theorem nanos_of_millis (fmul : ℚ → ℚ → ℚ) (hf : Faithful fmul) (m : Int)
    (hlo : -9223372036854775808000 ≤ m) (hhi : m < 9223372036854775808000) :
    nanosOfFloat fmul ((m : ℚ) / 1000) = m * 1000000 := by
  have r1 : (-9223372036854775808 : ℚ) ≤ (m : ℚ) / 1000 := by
    rw [le_div_iff₀ (by norm_num)]
    have : ((-9223372036854775808000 : Int) : ℚ) ≤ (m : ℚ) := by exact_mod_cast hlo
    push_cast at this
    linarith
  have r2 : (m : ℚ) / 1000 < 9223372036854775808 := by
    rw [div_lt_iff₀ (by norm_num)]
    have : (m : ℚ) < ((9223372036854775808000 : Int) : ℚ) := by exact_mod_cast hhi
    push_cast at this
    linarith
  have hs : int64 ((m : ℚ) / 1000) = Int.tdiv m 1000 := by
    rw [int64_eq _ r1 r2, tdiv_eq m 1000 (by norm_num)]
    have hfl : ∀ k : Int, ⌊(k : ℚ) / 1000⌋ = k / 1000 := by
      intro k
      have := Rat.floor_intCast_div_natCast k 1000
      simpa using this
    by_cases h : 0 ≤ m
    · have h2 : (0 : ℚ) ≤ (m : ℚ) / 1000 := by
        apply div_nonneg
        · exact_mod_cast h
        · norm_num
      rw [if_pos h2, if_pos h, hfl]
    · have h2 : ¬ (0 : ℚ) ≤ (m : ℚ) / 1000 := by
        intro h3
        have h4 : (0 : ℚ) ≤ (m : ℚ) := by
          have := mul_nonneg h3 (by norm_num : (0 : ℚ) ≤ 1000)
          simpa using this
        exact h (by exact_mod_cast h4)
      rw [if_neg h2, if_neg h]
      have h5 : ⌈(m : ℚ) / 1000⌉ = -⌊((-m : Int) : ℚ) / 1000⌋ := by
        rw [← Int.ceil_neg]
        congr 1
        push_cast
        ring
      rw [h5, hfl]
  have hm : (m : ℚ) = ((Int.tdiv m 1000 : Int) : ℚ) * 1000 + ((Int.tmod m 1000 : Int) : ℚ) := by
    have := Int.tdiv_add_tmod m 1000
    have h2 : ((1000 * Int.tdiv m 1000 + Int.tmod m 1000 : Int) : ℚ) = (m : ℚ) := by rw [this]
    push_cast at h2
    linarith
  have hr : -1000 < Int.tmod m 1000 ∧ Int.tmod m 1000 < 1000 := by
    rw [tmod_eq m 1000 (by norm_num)]
    split <;> omega
  have hp : ((m : ℚ) / 1000 - ((Int.tdiv m 1000 : Int) : ℚ)) * 1000000000 =
      ((Int.tmod m 1000 * 1000000 : Int) : ℚ) := by
    push_cast
    rw [hm]
    ring_nf
  rw [nanosOfFloat, hs, hf.whole _ _ hp (by omega) (by omega),
    int64_intCast _ (by omega) (by omega)]
  have := Int.tdiv_add_tmod m 1000
  omega

/-- The fraction of a timestamp within the range of `int64` lies strictly between -1 and
1, and has the sign of the timestamp. -/
theorem fraction_range (t : ℚ) (hlo : -9223372036854775808 ≤ t)
    (hhi : t < 9223372036854775808) :
    -1 < t - (int64 t : ℚ) ∧ t - (int64 t : ℚ) < 1 := by
  rw [int64_eq t hlo hhi]
  split
  · constructor <;> linarith [Int.floor_le t, Int.lt_floor_add_one t]
  · constructor <;> linarith [Int.le_ceil t, Int.ceil_lt_add_one t]

/-- The rounded product of a fraction `f` between two whole numbers of nanoseconds lies
between them after the conversion to `int64`. -/
theorem scaled_between (fmul : ℚ → ℚ → ℚ) (hf : Faithful fmul) (f : ℚ) (k n : Int)
    (hk : -1000000000 ≤ k) (hn : n ≤ 1000000000) (h1 : (k : ℚ) ≤ f * 1000000000)
    (h2 : f * 1000000000 ≤ (n : ℚ)) :
    k ≤ int64 (fmul f 1000000000) ∧ int64 (fmul f 1000000000) ≤ n := by
  have hkn : k ≤ n := by
    have : (k : ℚ) ≤ (n : ℚ) := le_trans h1 h2
    exact_mod_cast this
  have e1 : fmul ((k : ℚ) / 1000000000) 1000000000 = (k : ℚ) :=
    hf.whole _ k (by field_simp) hk (by omega)
  have e2 : fmul ((n : ℚ) / 1000000000) 1000000000 = (n : ℚ) :=
    hf.whole _ n (by field_simp) (by omega) hn
  have m1 := hf.mono ((k : ℚ) / 1000000000) f (by
    rw [div_le_iff₀ (by norm_num)]; exact h1)
  have m2 := hf.mono f ((n : ℚ) / 1000000000) (by
    rw [le_div_iff₀ (by norm_num)]; exact h2)
  rw [e1] at m1
  rw [e2] at m2
  have hn2 : (n : ℚ) < 9223372036854775808 := by
    have : (n : ℚ) ≤ ((1000000000 : Int) : ℚ) := by exact_mod_cast hn
    push_cast at this
    linarith
  have i1 := int64_mono _ _ m1 (lt_of_le_of_lt m2 hn2)
  have i2 := int64_mono _ _ m2 hn2
  rw [int64_intCast _ (by omega) (by omega)] at i1 i2
  exact ⟨i1, i2⟩

/-- The computed instant is the timestamp cut to whole nanoseconds, or one nanosecond
more when the product is rounded up to the next whole number; it is exact when the
timestamp is a whole number of nanoseconds. -/
theorem nanos_near (fmul : ℚ → ℚ → ℚ) (hf : Faithful fmul) (t : ℚ)
    (hlo : -9223372036854775808 ≤ t) (hhi : t < 9223372036854775808) :
    ⌊t * 1000000000⌋ ≤ nanosOfFloat fmul t ∧ nanosOfFloat fmul t ≤ ⌈t * 1000000000⌉ := by
  have hfr := fraction_range t hlo hhi
  generalize hfd : t - (int64 t : ℚ) = f at hfr
  have ht : t * 1000000000 = ((int64 t * 1000000000 : Int) : ℚ) + f * 1000000000 := by
    rw [← hfd]; push_cast; ring
  have hk1 : ((⌊f * 1000000000⌋ : Int) : ℚ) ≤ f * 1000000000 := Int.floor_le _
  have hk2 : f * 1000000000 ≤ ((⌈f * 1000000000⌉ : Int) : ℚ) := Int.le_ceil _
  have hfl : ⌊t * 1000000000⌋ = int64 t * 1000000000 + ⌊f * 1000000000⌋ := by
    rw [ht, Int.floor_int_add]
  have hcl : ⌈t * 1000000000⌉ = int64 t * 1000000000 + ⌈f * 1000000000⌉ := by
    rw [ht, add_comm, Int.ceil_add_int, add_comm]
  have kb1 : -1000000000 ≤ ⌊f * 1000000000⌋ := by
    apply Int.le_floor.mpr
    push_cast
    linarith [hfr.1]
  have kb2 : ⌈f * 1000000000⌉ ≤ 1000000000 := by
    apply Int.ceil_le.mpr
    push_cast
    linarith [hfr.2]
  have hb := scaled_between fmul hf f _ _ kb1 kb2 hk1 hk2
  rw [nanosOfFloat, hfd, hfl, hcl]
  omega

theorem nanos_of_int (fmul : ℚ → ℚ → ℚ) (hf : Faithful fmul) (k : Int)
    (hlo : -9223372036854775808 ≤ k) (hhi : k < 9223372036854775808) :
    nanosOfFloat fmul (k : ℚ) = k * 1000000000 := by
  have h := nanos_near fmul hf (k : ℚ) (by exact_mod_cast hlo) (by exact_mod_cast hhi)
  have e : (k : ℚ) * 1000000000 = ((k * 1000000000 : Int) : ℚ) := by push_cast; ring
  rw [e, Int.floor_intCast, Int.ceil_intCast] at h
  omega

/-- A later timestamp gives a later or equal computed instant. -/
theorem nanos_mono (fmul : ℚ → ℚ → ℚ) (hf : Faithful fmul) (a b : ℚ) (hab : a ≤ b)
    (hlo : -9223372036854775808 ≤ a) (hhi : b < 9223372036854775808) :
    nanosOfFloat fmul a ≤ nanosOfFloat fmul b := by
  have ra : a < 9223372036854775808 := lt_of_le_of_lt hab hhi
  have rb : -9223372036854775808 ≤ b := le_trans hlo hab
  have na := nanos_near fmul hf a hlo ra
  have nb := nanos_near fmul hf b rb hhi
  by_cases hcf : ⌈a * 1000000000⌉ ≤ ⌊b * 1000000000⌋
  · omega
  · -- no whole number of nanoseconds between the two: same second, compare the fractions
    have hs : int64 a = int64 b := by
      have hfl : ⌊a⌋ ≤ ⌊b⌋ := Int.floor_mono hab
      have hcl : ⌈a⌉ ≤ ⌈b⌉ := Int.ceil_mono hab
      have h1 := Int.ceil_le_floor_add_one a
      have h2 := Int.ceil_le_floor_add_one b
      have h3 : ¬ ⌈a⌉ ≤ ⌊b⌋ := by
        intro h
        apply hcf
        have e1 : a ≤ ((⌈a⌉ : Int) : ℚ) := Int.le_ceil a
        have e2 : ((⌊b⌋ : Int) : ℚ) ≤ b := Int.floor_le b
        have e3 : ((⌈a⌉ : Int) : ℚ) ≤ ((⌊b⌋ : Int) : ℚ) := by exact_mod_cast h
        have e4 : ⌈a * 1000000000⌉ ≤ ⌈a⌉ * 1000000000 := by
          apply Int.ceil_le.mpr
          push_cast
          linarith
        have e5 : ⌈a⌉ * 1000000000 ≤ ⌊b * 1000000000⌋ := by
          apply Int.le_floor.mpr
          push_cast
          linarith
        omega
      rw [int64_eq a hlo ra, int64_eq b rb hhi]
      by_cases ha : 0 ≤ a
      · rw [if_pos ha, if_pos (le_trans ha hab)]
        have := Int.floor_le_ceil a
        omega
      · by_cases hb : 0 ≤ b
        · exfalso
          have h4 : ⌈a⌉ ≤ 0 := Int.ceil_le.mpr (by push_cast; linarith)
          have h5 : 0 ≤ ⌊b⌋ := Int.floor_nonneg.mpr hb
          omega
        · rw [if_neg ha, if_neg hb]
          have := Int.floor_le_ceil b
          omega
    have hfb := fraction_range b rb hhi
    have hfa := fraction_range a hlo ra
    rw [hs] at hfa
    have hfr : a - (int64 b : ℚ) ≤ b - (int64 b : ℚ) := by linarith
    have hub : fmul (b - (int64 b : ℚ)) 1000000000 < 9223372036854775808 := by
      have m := hf.mono (b - (int64 b : ℚ)) 1 (le_of_lt hfb.2)
      have z1 : fmul 1 1000000000 = ((1000000000 : Int) : ℚ) :=
        hf.whole 1 1000000000 (by simp) (by omega) (by omega)
      rw [z1] at m
      push_cast at m
      linarith
    have := int64_mono _ _ (hf.mono _ _ hfr) hub
    rw [nanosOfFloat, nanosOfFloat, hs]
    omega

/-- The timestamp string of a numeric timestamp is the rendering, on the local clock, of
the computed instant moved by 978307200 seconds and cut to milliseconds. -/
theorem stampOf_float (l : Location) (fmul : ℚ → ℚ → ℚ) (t : ℚ) :
    stampOf l fmul (.float64 t) =
      some (calendarStamp (l.offset ((nanosOfFloat fmul t + 978307200000000000) / 1000000000))
        ((nanosOfFloat fmul t + 978307200000000000) / 1000000)) := by
  simp only [stampOf, datetimeOf, Option.map_some', unixOfFloat, Second]
  have hu := Unix_spec l (int64 t) (int64 (fmul (t - (int64 t : ℚ)) 1000000000))
  generalize Unix l (int64 t) (int64 (fmul (t - (int64 t : ℚ)) 1000000000)) = u at hu
  obtain ⟨u1, u2, u3, u4⟩ := hu
  have ha := Add_spec u (978307200 * 1000000000) u2 u3
  generalize u.Add (978307200 * 1000000000) = v at ha
  obtain ⟨v1, v2, v3, v4⟩ := ha
  rw [Format_eq v v2 v3, v4, u4]
  have e1 : v.sec * 1000000000 + v.nsec = nanosOfFloat fmul t + 978307200000000000 := by
    rw [nanosOfFloat]; omega
  have e2 : v.sec = (nanosOfFloat fmul t + 978307200000000000) / 1000000000 := by omega
  rw [e1, e2]

/-- The timestamp string of a `time.Time` is the rendering, on the clock of its location,
of its instant moved by 978307200 seconds and cut to milliseconds. -/
theorem stampOf_time (l : Location) (fmul : ℚ → ℚ → ℚ) (t : Time) (h0 : 0 ≤ t.nsec)
    (h1 : t.nsec < 1000000000) :
    stampOf l fmul (.time t) =
      some (calendarStamp
        (t.loc.offset ((t.sec * 1000000000 + t.nsec + 978307200000000000) / 1000000000))
        ((t.sec * 1000000000 + t.nsec + 978307200000000000) / 1000000)) := by
  simp only [stampOf, datetimeOf, Option.map_some', Second]
  have ha := Add_spec t (978307200 * 1000000000) h0 h1
  generalize t.Add (978307200 * 1000000000) = v at ha
  obtain ⟨v1, v2, v3, v4⟩ := ha
  rw [Format_eq v v2 v3, v4]
  have e1 : v.sec * 1000000000 + v.nsec = t.sec * 1000000000 + t.nsec + 978307200000000000 := by
    omega
  have e2 : v.sec = (t.sec * 1000000000 + t.nsec + 978307200000000000) / 1000000000 := by omega
  rw [e1, e2]

theorem floor_div_pos (y : ℚ) (n : Int) (hn : 0 < n) : ⌊y / (n : ℚ)⌋ = ⌊y⌋ / n := by
  have hnq : (0 : ℚ) < (n : ℚ) := by exact_mod_cast hn
  rw [Int.floor_eq_iff]
  have h1 : ((⌊y⌋ : Int) : ℚ) ≤ y := Int.floor_le y
  have h2 : y < ((⌊y⌋ : Int) : ℚ) + 1 := Int.lt_floor_add_one y
  have hd : ⌊y⌋ = n * (⌊y⌋ / n) + ⌊y⌋ % n := (Int.ediv_add_emod _ _).symm
  have hr0 : 0 ≤ ⌊y⌋ % n := Int.emod_nonneg _ (by omega)
  have hr1 : ⌊y⌋ % n < n := Int.emod_lt_of_pos _ hn
  have hq : ((⌊y⌋ : Int) : ℚ) = (n : ℚ) * (((⌊y⌋ / n : Int)) : ℚ) + ((⌊y⌋ % n : Int) : ℚ) := by
    exact_mod_cast hd
  have hr0q : (0 : ℚ) ≤ ((⌊y⌋ % n : Int) : ℚ) := by exact_mod_cast hr0
  have hr1q : ((⌊y⌋ % n : Int) : ℚ) + 1 ≤ (n : ℚ) := by exact_mod_cast hr1
  constructor
  · rw [le_div_iff₀ hnq]
    nlinarith
  · rw [div_lt_iff₀ hnq]
    nlinarith

theorem floor_millis (t : ℚ) : ⌊t * 1000⌋ = ⌊t * 1000000000⌋ / 1000000 := by
  have := floor_div_pos (t * 1000000000) 1000000 (by norm_num)
  rw [← this]
  congr 1
  push_cast
  ring

theorem floor_seconds (t : ℚ) : ⌊t⌋ = ⌊t * 1000000000⌋ / 1000000000 := by
  have := floor_div_pos (t * 1000000000) 1000000000 (by norm_num)
  rw [← this]
  congr 1
  push_cast
  field_simp

/-- A numeric timestamp that does not lie in the last nanosecond before a whole
millisecond is rendered as its instant, cut to whole milliseconds and moved by 978307200
seconds, on the local clock. -/
theorem stampOf_floor (l : Location) (fmul : ℚ → ℚ → ℚ) (hf : Faithful fmul) (t : ℚ)
    (hlo : -9223372036854775808 ≤ t) (hhi : t < 9223372036854775808)
    (hedge : ⌊t * 1000000000⌋ % 1000000 ≠ 999999) :
    stampOf l fmul (.float64 t) =
      some (calendarStamp (l.offset (⌊t⌋ + 978307200)) (⌊t * 1000⌋ + 978307200000)) := by
  obtain ⟨n1, n2⟩ := nanos_near fmul hf t hlo hhi
  have hc := Int.ceil_le_floor_add_one (t * 1000000000)
  rw [stampOf_float, floor_millis, floor_seconds]
  generalize ⌊t * 1000000000⌋ = N at *
  generalize nanosOfFloat fmul t = n at *
  have e1 : (n + 978307200000000000) / 1000000000 = N / 1000000000 + 978307200 := by omega
  have e2 : (n + 978307200000000000) / 1000000 = N / 1000000 + 978307200000 := by omega
  rw [e1, e2]

theorem exactMul_faithful : Faithful exactMul :=
  ⟨fun x y h => by
      simp only [exactMul]
      exact mul_le_mul_of_nonneg_right h (by norm_num),
    fun x n h _ _ => by simp only [exactMul]; exact h⟩

theorem fixed_digits (w n : Nat) : ∀ c ∈ fixed w n, c.isDigit = true := by
  induction w generalizing n with
  | zero => intro c h; simp [fixed] at h
  | succ w ih =>
    intro c h
    simp only [fixed, List.mem_append, List.mem_singleton] at h
    rcases h with h | h
    · exact ih _ c h
    · rw [h]
      have : n % 10 < 10 := Nat.mod_lt _ (by norm_num)
      generalize n % 10 = k at this
      interval_cases k <;> rfl

theorem calendarStamp_shape (o ms : Int) (h0 : -62167219200000 ≤ ms + o * 1000)
    (h1 : ms + o * 1000 < 253402300800000) : StampShape (calendarStamp o ms) := by
  obtain ⟨y, m, d, h, mi, s, f, e, _⟩ := calendarStamp_fields o ms h0 h1
  refine ⟨fixed 4 y ++ (fixed 2 m ++ (fixed 2 d ++ (fixed 2 h ++ (fixed 2 mi ++ fixed 2 s)))),
    fixed 3 f, ?_, ?_, ?_, ?_, ?_⟩
  · rw [e]; simp
  · simp [fixed_length]
  · simp [fixed_length]
  · intro c hc
    simp only [List.mem_append] at hc
    rcases hc with hc | hc | hc | hc | hc | hc <;> exact fixed_digits _ _ c hc
  · exact fixed_digits _ _

/-- At a whole number of milliseconds the timestamp string renders that instant, moved
by 978307200 seconds, on the local clock. -/
theorem stampOf_millis (l : Location) (fmul : ℚ → ℚ → ℚ) (hf : Faithful fmul) (k : Int)
    (hlo : -9223372036854775808000 ≤ k) (hhi : k < 9223372036854775808000) :
    stampOf l fmul (.float64 ((k : ℚ) / 1000)) =
      some (calendarStamp (l.offset ((k + 978307200000) / 1000)) (k + 978307200000)) := by
  rw [stampOf_float, nanos_of_millis fmul hf k hlo hhi]
  have e1 : (k * 1000000 + 978307200000000000) / 1000000000 = (k + 978307200000) / 1000 := by
    omega
  have e2 : (k * 1000000 + 978307200000000000) / 1000000 = k + 978307200000 := by omega
  rw [e1, e2]

theorem stampOf_origin (l : Location) (fmul : ℚ → ℚ → ℚ) (hf : Faithful fmul) :
    stampOf l fmul (.float64 0) = some (calendarStamp (l.offset 978307200) 978307200000) := by
  have h0 := stampOf_millis l fmul hf 0 (by norm_num) (by norm_num)
  simp only [Int.cast_zero, zero_div] at h0
  rw [h0]
  rfl

theorem stampOf_zero (l : Location) :
    stampOf l exactMul (.float64 0) = some (calendarStamp (l.offset 978307200) 978307200000) :=
  stampOf_origin l exactMul exactMul_faithful

/-- The `float64` product `0x1.3333333333333p-2 * 1000000000` is rounded up to the whole
number 300000000. -/
theorem ieeeMul_double03 : ieeeMul double03 1000000000 = 300000000 := by
  have hq : double03 * 1000000000 = 5404319552844595000000000 / 18014398509481984 := by
    unfold double03
    norm_num
  have hpos : (0 : ℚ) < 5404319552844595000000000 / 18014398509481984 := by norm_num
  have hL : Int.log 2 |double03 * 1000000000| = 28 := by
    rw [hq, abs_of_pos hpos]
    have h1 : Int.log 2 ((5404319552844595000000000 : ℚ) / 18014398509481984) < 29 :=
      (Int.lt_zpow_iff_log_lt (by norm_num : 1 < 2) hpos).mp (by norm_num)
    have h2 : 28 ≤ Int.log 2 ((5404319552844595000000000 : ℚ) / 18014398509481984) :=
      (Int.zpow_le_iff_le_log (by norm_num : 1 < 2) hpos).mp (by norm_num)
    omega
  have he : ulpExp (double03 * 1000000000) = -24 := by
    unfold ulpExp
    rw [hL]
    rfl
  have hs : double03 * 1000000000 / 2 ^ (-24 : Int) =
      5404319552844595000000000 / 1073741824 := by
    rw [hq]
    norm_num
  have hfl : ⌊(5404319552844595000000000 : ℚ) / 1073741824⌋ = 5033164799999999 := by
    rw [Int.floor_eq_iff]
    norm_num
  have hr : roundHalfEven ((5404319552844595000000000 : ℚ) / 1073741824) =
      5033164800000000 := by
    unfold roundHalfEven
    rw [hfl]
    norm_num
  unfold ieeeMul roundFloat64
  rw [he, hs, hr]
  norm_num

/-- The code renders the `float64` nearest to 0.3 with the milliseconds 300. -/
theorem stampOf_double03 :
    stampOf UTC ieeeMul (.float64 double03) = some "20010101000000.300".toList := by
  have h0 : int64 double03 = 0 := by
    rw [int64_eq double03 (by unfold double03; norm_num) (by unfold double03; norm_num),
      if_pos (by unfold double03; norm_num)]
    rw [Int.floor_eq_iff]
    unfold double03
    norm_num
  have hn : nanosOfFloat ieeeMul double03 = 300000000 := by
    rw [nanosOfFloat, h0]
    simp only [Int.cast_zero, sub_zero, zero_mul, zero_add]
    rw [ieeeMul_double03]
    exact int64_intCast 300000000 (by norm_num) (by norm_num)
  rw [stampOf_float, hn]
  decide

/-! ## The timestamp string: C1 and C9 -/

/-- C1, as amended: for every numeric timestamp `t` (a) whose rendering on the clock of
the local time zone of the process falls in the years 0000 to 9999, (b) on a local clock
that is, at that moment, `o` seconds and less than a day from UTC, and (c) that does not
lie in the last nanosecond before a whole millisecond (there the rounded product
`nsec*1000000000` reaches the next millisecond), the timestamp part of the file name is
the calendar rendering of the instant `t + 978307200` seconds after 1970-01-01T00:00:00
UTC, cut to whole milliseconds, on the local clock; it has the shape `YYYYMMDDHHMMSS.mmm`
of fourteen digits, a dot and three digits, 18 characters.  With `o = 0`, the local zone
being UTC, this is the UTC rendering, and for `t = 0` it is then `20010101000000.000`. -/
theorem C1_stamp_of_numeric_timestamp (localZone : Location) (fmul : ℚ → ℚ → ℚ)
    (hf : Faithful fmul) (t : ℚ) (o : Int)
    (hzone : localZone.offset (⌊t⌋ + 978307200) = o)
    (hday : -86400 < o ∧ o < 86400)
    (hlo : -62167219200000 ≤ ⌊t * 1000⌋ + 978307200000 + o * 1000)
    (hhi : ⌊t * 1000⌋ + 978307200000 + o * 1000 < 253402300800000)
    (hedge : ⌊t * 1000000000⌋ % 1000000 ≠ 999999) :
    stampOf localZone fmul (.float64 t) =
        some (calendarStamp o (⌊t * 1000⌋ + 978307200000)) ∧
      StampShape (calendarStamp o (⌊t * 1000⌋ + 978307200000)) ∧
      (calendarStamp o (⌊t * 1000⌋ + 978307200000)).length = 18 ∧
      stampOf UTC fmul (.float64 0) = some "20010101000000.000".toList := by
  have r1 : -9223372036854775808 ≤ t := by
    have h1 : ((⌊t * 1000⌋ : Int) : ℚ) ≤ t * 1000 := Int.floor_le _
    have h2 : ((-63231926400000 : Int) : ℚ) ≤ ((⌊t * 1000⌋ : Int) : ℚ) := by
      have : (-63231926400000 : Int) ≤ ⌊t * 1000⌋ := by omega
      exact_mod_cast this
    push_cast at h2
    linarith
  have r2 : t < 9223372036854775808 := by
    have h1 : t * 1000 < ((⌊t * 1000⌋ : Int) : ℚ) + 1 := Int.lt_floor_add_one _
    have h2 : ((⌊t * 1000⌋ : Int) : ℚ) ≤ ((252510393600000 : Int) : ℚ) := by
      have : ⌊t * 1000⌋ ≤ (252510393600000 : Int) := by omega
      exact_mod_cast this
    push_cast at h2
    linarith
  refine ⟨?_, calendarStamp_shape _ _ hlo hhi, calendarStamp_length _ _ hlo hhi, ?_⟩
  · rw [stampOf_floor localZone fmul hf t r1 r2 hedge, hzone]
  · rw [stampOf_origin UTC fmul hf]
    decide

/-- C1, witness: one and a half seconds after the application epoch, on a clock one hour
east of UTC: `20010101010001.500`. -/
theorem C1_stamp_of_numeric_timestamp_witness :
    Faithful ieeeMul ∧ (fixedZone 3600).offset (⌊(3 / 2 : ℚ)⌋ + 978307200) = 3600 ∧
    ⌊(3 / 2 : ℚ) * 1000000000⌋ % 1000000 ≠ 999999 ∧
    stampOf (fixedZone 3600) ieeeMul (.float64 (3 / 2)) =
      some "20010101010001.500".toList ∧
    StampShape "20010101010001.500".toList ∧ "20010101010001.500".toList.length = 18 :=
  have h2 : ⌊(3 / 2 : ℚ) * 1000000000⌋ = 1500000000 := by
    rw [Int.floor_eq_iff]; norm_num
  have h3 : ⌊(3 / 2 : ℚ) * 1000⌋ = 1500 := by
    rw [Int.floor_eq_iff]; norm_num
  have hs : calendarStamp 3600 (1500 + 978307200000) = "20010101010001.500".toList := by
    decide
  have h := C1_stamp_of_numeric_timestamp (fixedZone 3600) ieeeMul ieeeMul_faithful (3 / 2)
    3600 rfl (by decide) (by rw [h3]; decide) (by rw [h3]; decide) (by rw [h2]; decide)
  ⟨ieeeMul_faithful, rfl, by rw [h2]; decide, by rw [h.1, h3, hs],
    by rw [← hs, ← h3]; exact h.2.1, by rw [← hs, ← h3]; exact h.2.2.1⟩

/-- C1, counterexample, in three parts.  On a clock one hour east of UTC the timestamp 0
gives `20010101010000.000`, which is neither `20010101000000.000` nor the UTC rendering.
In UTC the timestamp 252423993600 gives `100000101000000.000`, with a year of five digits
and 19 characters.  In UTC the `float64` nearest to 0.3, which lies in the last nanosecond
before the millisecond 300, gives `20010101000000.300`, while its instant cut to whole
milliseconds is rendered `20010101000000.299`. -/
theorem C1_zone_year_rounding_counterexample :
    (stampOf (fixedZone 3600) ieeeMul (.float64 0) = some "20010101010000.000".toList ∧
      stampOf (fixedZone 3600) ieeeMul (.float64 0) ≠ some "20010101000000.000".toList ∧
      stampOf (fixedZone 3600) ieeeMul (.float64 0) ≠
        some (calendarStamp 0 (⌊(0 : ℚ) * 1000⌋ + 978307200000))) ∧
    (stampOf UTC ieeeMul (.float64 252423993600) = some "100000101000000.000".toList ∧
      "100000101000000.000".toList.length = 19 ∧
      ¬ StampShape "100000101000000.000".toList) ∧
    (stampOf UTC ieeeMul (.float64 double03) = some "20010101000000.300".toList ∧
      ⌊double03 * 1000000000⌋ % 1000000 = 999999 ∧
      calendarStamp 0 (⌊double03 * 1000⌋ + 978307200000) = "20010101000000.299".toList ∧
      stampOf UTC ieeeMul (.float64 double03) ≠
        some (calendarStamp 0 (⌊double03 * 1000⌋ + 978307200000))) := by
  have h : stampOf (fixedZone 3600) ieeeMul (.float64 0) =
      some "20010101010000.000".toList := by
    rw [stampOf_origin _ _ ieeeMul_faithful]
    decide
  have hy : stampOf UTC ieeeMul (.float64 252423993600) =
      some "100000101000000.000".toList := by
    have h1 := stampOf_millis UTC ieeeMul ieeeMul_faithful 252423993600000 (by norm_num)
      (by norm_num)
    have e1 : (((252423993600000 : Int) : ℚ) / 1000) = 252423993600 := by norm_num
    rw [e1] at h1
    rw [h1]
    decide
  have hz : ⌊(0 : ℚ) * 1000⌋ = 0 := by simp
  have hn : ⌊double03 * 1000000000⌋ = 299999999 := by
    rw [Int.floor_eq_iff]
    unfold double03
    norm_num
  have hm : ⌊double03 * 1000⌋ = 299 := by
    rw [Int.floor_eq_iff]
    unfold double03
    norm_num
  have hc : calendarStamp 0 (299 + 978307200000) = "20010101000000.299".toList := by decide
  refine ⟨⟨h, ?_, ?_⟩, ⟨hy, by decide, ?_⟩, ⟨stampOf_double03, ?_, ?_, ?_⟩⟩
  · rw [h]; decide
  · rw [h, hz]; decide
  · rintro ⟨x, y, e, hx, hy2, -, -⟩
    have hl : ("100000101000000.000".toList).length = (x ++ '.' :: y).length := by rw [e]
    simp [hx, hy2] at hl
  · rw [hn]; decide
  · rw [hm, hc]
  · rw [stampOf_double03, hm, hc]; decide

/-- The timestamp string of a scanned value on a clock that keeps one offset. -/
theorem stampOf_value (l : Location) (c : Int) (fmul : ℚ → ℚ → ℚ) (v : Value)
    (hc : v.onClock l c) :
    stampOf l fmul v =
      some (calendarStamp c ((v.nanos fmul + 978307200000000000) / 1000000)) := by
  cases v with
  | time t =>
    obtain ⟨h1, h2, h3⟩ := hc
    rw [stampOf_time l fmul t h2 h3, h1]
    rfl
  | float64 f =>
    have h1 : ∀ s, l.offset s = c := hc
    rw [stampOf_float, h1]
    rfl
  | other => exact absurd hc (by simp [Value.onClock])

/-- The instant computed for a scanned value lies between its timestamp cut to whole
nanoseconds and its timestamp raised to whole nanoseconds. -/
theorem value_nanos_near (l : Location) (c : Int) (fmul : ℚ → ℚ → ℚ) (hf : Faithful fmul)
    (v : Value) (hc : v.onClock l c) (hlo : -9223372036854775808 ≤ v.seconds)
    (hhi : v.seconds < 9223372036854775808) :
    ⌊v.seconds * 1000000000⌋ ≤ v.nanos fmul ∧ v.nanos fmul ≤ ⌈v.seconds * 1000000000⌉ := by
  cases v with
  | time t =>
    have e : ((t.sec : ℚ) + (t.nsec : ℚ) / 1000000000) * 1000000000 =
        ((t.sec * 1000000000 + t.nsec : Int) : ℚ) := by
      push_cast
      field_simp
    simp only [Value.seconds, Value.nanos]
    rw [e, Int.floor_intCast, Int.ceil_intCast]
    exact ⟨le_refl _, le_refl _⟩
  | float64 f => exact nanos_near fmul hf f hlo hhi
  | other => exact absurd hc (by simp [Value.onClock])

/-- A later timestamp gives a later or equal computed instant, whichever of the two
representations each value has. -/
theorem value_nanos_mono (l : Location) (c : Int) (fmul : ℚ → ℚ → ℚ) (hf : Faithful fmul)
    (va vb : Value) (hca : va.onClock l c) (hcb : vb.onClock l c)
    (hab : va.seconds ≤ vb.seconds) (hlo : -9223372036854775808 ≤ va.seconds)
    (hhi : vb.seconds < 9223372036854775808) :
    va.nanos fmul ≤ vb.nanos fmul := by
  have ra : va.seconds < 9223372036854775808 := lt_of_le_of_lt hab hhi
  have rb : -9223372036854775808 ≤ vb.seconds := le_trans hlo hab
  have na := value_nanos_near l c fmul hf va hca hlo ra
  have nb := value_nanos_near l c fmul hf vb hcb rb hhi
  have hfc : ⌊va.seconds * 1000000000⌋ ≤ ⌊vb.seconds * 1000000000⌋ :=
    Int.floor_mono (by linarith)
  have hcc : ⌈va.seconds * 1000000000⌉ ≤ ⌈vb.seconds * 1000000000⌉ :=
    Int.ceil_mono (by linarith)
  cases va with
  | time ta =>
    have e : ((ta.sec : ℚ) + (ta.nsec : ℚ) / 1000000000) * 1000000000 =
        ((ta.sec * 1000000000 + ta.nsec : Int) : ℚ) := by
      push_cast
      field_simp
    have hfc2 : ⌊((ta.sec : ℚ) + (ta.nsec : ℚ) / 1000000000) * 1000000000⌋ ≤
        ⌊vb.seconds * 1000000000⌋ := hfc
    rw [e, Int.floor_intCast] at hfc2
    show ta.sec * 1000000000 + ta.nsec ≤ vb.nanos fmul
    omega
  | float64 fa =>
    cases vb with
    | time tb =>
      have e : ((tb.sec : ℚ) + (tb.nsec : ℚ) / 1000000000) * 1000000000 =
          ((tb.sec * 1000000000 + tb.nsec : Int) : ℚ) := by
        push_cast
        field_simp
      have hcc2 : ⌈(Value.float64 fa).seconds * 1000000000⌉ ≤
          ⌈((tb.sec : ℚ) + (tb.nsec : ℚ) / 1000000000) * 1000000000⌉ := hcc
      rw [e, Int.ceil_intCast] at hcc2
      show (Value.float64 fa).nanos fmul ≤ tb.sec * 1000000000 + tb.nsec
      omega
    | float64 fb => exact nanos_mono fmul hf fa fb hab hlo hhi
    | other => exact absurd hcb (by simp [Value.onClock])
  | other => exact absurd hca (by simp [Value.onClock])

/-- C9, as amended: for every two message timestamps `a` and `b`, each read as a number
or as a `time.Time`, with `a` not later than `b`, both rendered on a clock that keeps one
offset `c` of less than a day from UTC (the local time zone for a number, its own location
for a `time.Time`), and both falling between 0000-01-01T00:00:00 and 9999-12-31T23:59:59
on that clock: both timestamp strings have the shape of fourteen digits, a dot and three
digits (18 characters), and the string of `a` is lexicographically less than or equal to
the string of `b`. -/
theorem C9_stamps_sorted (localZone : Location) (c : Int) (fmul : ℚ → ℚ → ℚ)
    (hf : Faithful fmul) (va vb : Value)
    (hca : va.onClock localZone c) (hcb : vb.onClock localZone c)
    (hday : -86400 < c ∧ c < 86400)
    (hab : va.seconds ≤ vb.seconds)
    (hlo : ((-63145526400 - c : Int) : ℚ) ≤ va.seconds)
    (hhi : vb.seconds ≤ ((252423993599 - c : Int) : ℚ)) :
    ∃ sa sb : Str, stampOf localZone fmul va = some sa ∧
      stampOf localZone fmul vb = some sb ∧
      sa.length = 18 ∧ sb.length = 18 ∧ StampShape sa ∧ StampShape sb ∧
      lexLe sa sb = true := by
  have c1 : ((-63145612800 : Int) : ℚ) ≤ ((-63145526400 - c : Int) : ℚ) := by
    have : (-63145612800 : Int) ≤ -63145526400 - c := by omega
    exact_mod_cast this
  have c2 : ((252423993599 - c : Int) : ℚ) ≤ ((252424079999 : Int) : ℚ) := by
    have : 252423993599 - c ≤ (252424079999 : Int) := by omega
    exact_mod_cast this
  push_cast at c1 c2
  have ra : -9223372036854775808 ≤ va.seconds := by push_cast at hlo; linarith
  have rb : vb.seconds < 9223372036854775808 := by push_cast at hhi; linarith
  have ra2 : va.seconds < 9223372036854775808 := lt_of_le_of_lt hab rb
  have rb2 : -9223372036854775808 ≤ vb.seconds := le_trans ra hab
  have na := value_nanos_near localZone c fmul hf va hca ra ra2
  have nb := value_nanos_near localZone c fmul hf vb hcb rb2 rb
  have nab := value_nanos_mono localZone c fmul hf va vb hca hcb hab ra rb
  have fa : (-63145526400 - c) * 1000000000 ≤ ⌊va.seconds * 1000000000⌋ := by
    apply Int.le_floor.mpr
    push_cast at hlo ⊢
    linarith
  have fb : ⌈vb.seconds * 1000000000⌉ ≤ (252423993599 - c) * 1000000000 := by
    apply Int.ceil_le.mpr
    push_cast at hhi ⊢
    linarith
  refine ⟨_, _, stampOf_value localZone c fmul va hca, stampOf_value localZone c fmul vb hcb,
    ?_, ?_, ?_, ?_, ?_⟩
  · exact calendarStamp_length _ _ (by omega) (by omega)
  · exact calendarStamp_length _ _ (by omega) (by omega)
  · exact calendarStamp_shape _ _ (by omega) (by omega)
  · exact calendarStamp_shape _ _ (by omega) (by omega)
  · exact calendarStamp_mono _ _ _ (by omega) (by omega) (by omega)

/-- C9, witness: a number, half a second after the application epoch, and a `time.Time`
in UTC, one second after it, on a process whose local time zone is UTC. -/
theorem C9_stamps_sorted_witness :
    (Value.float64 (1 / 2)).onClock UTC 0 ∧ (Value.time ⟨1, 0, UTC⟩).onClock UTC 0 ∧
    Faithful ieeeMul ∧ (Value.float64 (1 / 2)).seconds ≤ (Value.time ⟨1, 0, UTC⟩).seconds ∧
    ∃ sa sb : Str, stampOf UTC ieeeMul (.float64 (1 / 2)) = some sa ∧
      stampOf UTC ieeeMul (.time ⟨1, 0, UTC⟩) = some sb ∧
      sa.length = 18 ∧ sb.length = 18 ∧ StampShape sa ∧ StampShape sb ∧
      lexLe sa sb = true :=
  have h1 : (Value.float64 (1 / 2)).onClock UTC 0 := fun _ => rfl
  have h2 : (Value.time ⟨1, 0, UTC⟩).onClock UTC 0 :=
    ⟨fun _ => rfl, by decide, by decide⟩
  have h3 : (Value.float64 (1 / 2)).seconds ≤ (Value.time ⟨1, 0, UTC⟩).seconds := by
    simp only [Value.seconds]
    norm_num
  ⟨h1, h2, ieeeMul_faithful, h3,
    C9_stamps_sorted UTC 0 ieeeMul ieeeMul_faithful (.float64 (1 / 2)) (.time ⟨1, 0, UTC⟩)
      h1 h2 (by decide) h3 (by simp only [Value.seconds]; norm_num)
      (by simp only [Value.seconds]; norm_num)⟩

/-- C9, counterexample, in three parts.  In UTC the timestamp 300000000000 renders to a
string of 19 characters (year 11507).  On the Central European clock of 28 October 2001
the timestamp 25923000 (02:50 summer time) renders to a string that sorts after the string
of the later timestamp 25924200 (02:10 winter time).  On a clock one hour east of UTC the
number 0 renders to `20010101010000.000`, which sorts after `20010101003000.000`, the
string of the later timestamp 1800 read as a `time.Time` in UTC. -/
theorem C9_length_and_order_counterexample :
    (stampOf UTC ieeeMul (.float64 300000000000) = some "115070817052000.000".toList ∧
      "115070817052000.000".toList.length = 19) ∧
    (stampOf centralEurope ieeeMul (.float64 25923000) = some "20011028025000.000".toList ∧
      stampOf centralEurope ieeeMul (.float64 25924200) = some "20011028021000.000".toList ∧
      (Value.float64 25923000).seconds ≤ (Value.float64 25924200).seconds ∧
      lexLe "20011028025000.000".toList "20011028021000.000".toList = false) ∧
    (stampOf (fixedZone 3600) ieeeMul (.float64 0) = some "20010101010000.000".toList ∧
      stampOf (fixedZone 3600) ieeeMul (.time ⟨1800, 0, UTC⟩) =
        some "20010101003000.000".toList ∧
      (Value.float64 0).seconds ≤ (Value.time ⟨1800, 0, UTC⟩).seconds ∧
      lexLe "20010101010000.000".toList "20010101003000.000".toList = false) := by
  have h1 := stampOf_millis UTC ieeeMul ieeeMul_faithful 300000000000000 (by norm_num)
    (by norm_num)
  have h2 := stampOf_millis centralEurope ieeeMul ieeeMul_faithful 25923000000 (by norm_num)
    (by norm_num)
  have h3 := stampOf_millis centralEurope ieeeMul ieeeMul_faithful 25924200000 (by norm_num)
    (by norm_num)
  have e1 : (((300000000000000 : Int) : ℚ) / 1000) = 300000000000 := by norm_num
  have e2 : (((25923000000 : Int) : ℚ) / 1000) = 25923000 := by norm_num
  have e3 : (((25924200000 : Int) : ℚ) / 1000) = 25924200 := by norm_num
  rw [e1] at h1
  rw [e2] at h2
  rw [e3] at h3
  refine ⟨⟨?_, by decide⟩, ⟨?_, ?_, ?_, by decide⟩, ⟨?_, ?_, ?_, by decide⟩⟩
  · rw [h1]; decide
  · rw [h2]; decide
  · rw [h3]; decide
  · simp only [Value.seconds]; norm_num
  · rw [stampOf_origin _ _ ieeeMul_faithful]; decide
  · rw [stampOf_time _ _ _ (by decide) (by decide)]; decide
  · simp only [Value.seconds]; norm_num

/-! ## `strings.Split` and `strings.Join` -/

theorem Split_ne_nil (s : Str) (sep : Char) : Split s sep ≠ [] := by
  induction s with
  | nil => simp [Split]
  | cons c cs ih =>
    simp only [Split]
    split
    · simp
    · split
      · simp
      · simp

theorem Split_cons_sep (cs : Str) (sep : Char) : Split (sep :: cs) sep = [] :: Split cs sep := by
  simp [Split]

theorem Split_cons_other (c : Char) (cs : Str) (sep : Char) (h : c ≠ sep) :
    ∃ p t, Split cs sep = p :: t ∧ Split (c :: cs) sep = (c :: p) :: t := by
  cases hs : Split cs sep with
  | nil => exact absurd hs (Split_ne_nil cs sep)
  | cons p t => exact ⟨p, t, rfl, by simp [Split, h, hs]⟩

/-- There is one piece more than there are separators. -/
theorem Split_length (s : Str) (sep : Char) : (Split s sep).length = s.count sep + 1 := by
  induction s with
  | nil => simp [Split]
  | cons c cs ih =>
    by_cases h : c = sep
    · subst h
      rw [Split_cons_sep]
      simp [ih]
    · obtain ⟨p, t, e1, e2⟩ := Split_cons_other c cs sep h
      rw [e2]
      rw [e1] at ih
      rw [List.count_cons_of_ne (fun h2 => h h2.symm)]
      simpa using ih

/-- No piece holds a separator. -/
theorem Split_pieces (s : Str) (sep : Char) : ∀ p ∈ Split s sep, sep ∉ p := by
  induction s with
  | nil => simp [Split]
  | cons c cs ih =>
    by_cases h : c = sep
    · subst h
      rw [Split_cons_sep]
      intro p hp
      rcases List.mem_cons.mp hp with h1 | h1
      · subst h1; simp
      · exact ih p h1
    · obtain ⟨q, t, e1, e2⟩ := Split_cons_other c cs sep h
      rw [e2]
      rw [e1] at ih
      intro p hp
      rcases List.mem_cons.mp hp with h1 | h1
      · subst h1
        intro hm
        rcases List.mem_cons.mp hm with h2 | h2
        · exact h h2.symm
        · exact ih q (List.mem_cons_self _ _) h2
      · exact ih p (List.mem_cons_of_mem _ h1)

/-- Joining the pieces with the separator gives the string back. -/
theorem Join_Split (s : Str) (sep : Char) : Join (Split s sep) [sep] = s := by
  induction s with
  | nil => simp [Split, Join]
  | cons c cs ih =>
    by_cases h : c = sep
    · subst h
      rw [Split_cons_sep]
      cases hs : Split cs c with
      | nil => exact absurd hs (Split_ne_nil cs c)
      | cons p t =>
        rw [hs] at ih
        simp [Join, ih]
    · obtain ⟨q, t, e1, e2⟩ := Split_cons_other c cs sep h
      rw [e2]
      rw [e1] at ih
      cases t with
      | nil => simp only [Join] at ih ⊢; rw [ih]
      | cons q2 t2 => simp only [Join] at ih ⊢; rw [← ih]; simp

theorem Split_append_sep (a b : Str) (sep : Char) (h : sep ∉ a) :
    Split (a ++ sep :: b) sep = a :: Split b sep := by
  induction a with
  | nil => simp [Split]
  | cons c cs ih =>
    have hc : c ≠ sep := fun e => h (by simp [e])
    have hcs : sep ∉ cs := fun e => h (List.mem_cons_of_mem _ e)
    obtain ⟨q, t, e1, e2⟩ := Split_cons_other c (cs ++ sep :: b) sep hc
    rw [List.cons_append, e2]
    rw [ih hcs] at e1
    injection e1 with e3 e4
    rw [← e3, ← e4]

theorem Split_no_sep (a : Str) (sep : Char) (h : sep ∉ a) : Split a sep = [a] := by
  induction a with
  | nil => simp [Split]
  | cons c cs ih =>
    have hc : c ≠ sep := fun e => h (by simp [e])
    have hcs : sep ∉ cs := fun e => h (List.mem_cons_of_mem _ e)
    obtain ⟨q, t, e1, e2⟩ := Split_cons_other c cs sep hc
    rw [e2]
    rw [ih hcs] at e1
    injection e1 with e3 e4
    rw [← e3, ← e4]

/-- Splitting a joined list of separator-free segments gives the segments back. -/
theorem Split_Join (p : Str) (ps : List Str) (sep : Char) (h : ∀ q ∈ p :: ps, sep ∉ q) :
    Split (Join (p :: ps) [sep]) sep = p :: ps := by
  induction ps generalizing p with
  | nil => simpa [Join] using Split_no_sep p sep (h p (List.mem_cons_self _ _))
  | cons q qs ih =>
    simp only [Join, List.append_assoc, List.singleton_append]
    rw [Split_append_sep _ _ _ (h p (List.mem_cons_self _ _)),
      ih q (fun r hr => h r (List.mem_cons_of_mem _ hr))]

/-- Exactly two pieces: the string is a base, one separator, and an extension. -/
theorem Split_two (s : Str) (sep : Char) (h : (Split s sep).length = 2) :
    ∃ base ext, s = base ++ sep :: ext ∧ sep ∉ base ∧ sep ∉ ext ∧ Split s sep = [base, ext] := by
  have hj := Join_Split s sep
  have hp := Split_pieces s sep
  match hs : Split s sep, h with
  | [base, ext], _ =>
    rw [hs] at hj hp
    refine ⟨base, ext, ?_, hp base (by simp), hp ext (by simp), rfl⟩
    rw [← hj]
    simp [Join]

/-! ## The media loop -/

theorem getD_last (l : List Str) (x : Str) (h : l.getLast? = some x) :
    l.getD (l.length - 1) [] = x := by
  rw [List.getLast?_eq_getElem?] at h
  rw [List.getD_eq_getElem?_getD, h]
  rfl

theorem itemLoop_some (env : Env) (flags : Flags) (chatsMap : List (Str × Str))
    (row : Str × Value × Str) (rest : List (Option (Str × Value × Str))) (i : Nat) (fs : FS) :
    itemLoop env flags chatsMap (some row :: rest) i fs =
      match transfer env flags chatsMap row with
      | .error e => ⟨[], .error e, fs⟩
      | .ok (src, dst) =>
        match copy (env.faults i) fs src dst with
        | (some e, fs1) => ⟨[.copy src dst], .error (.copyFailed e), fs1⟩
        | (none, fs1) =>
          (itemLoop env flags chatsMap rest (i + 1) fs1).after [.copy src dst] := by
  rw [itemLoop]

/-- The loop over a list of rows in two parts: the second part runs when the first ends
without `log.Fatal`. -/
theorem itemLoop_append (env : Env) (flags : Flags) (chatsMap : List (Str × Str))
    (pre post : List (Option (Str × Value × Str))) (i : Nat) (fs : FS) :
    itemLoop env flags chatsMap (pre ++ post) i fs =
      match (itemLoop env flags chatsMap pre i fs).result with
      | .error _ => itemLoop env flags chatsMap pre i fs
      | .ok _ =>
        (itemLoop env flags chatsMap post (i + pre.length)
          (itemLoop env flags chatsMap pre i fs).fs).after
          (itemLoop env flags chatsMap pre i fs).events := by
  induction pre generalizing i fs with
  | nil =>
    simp only [List.nil_append, itemLoop, List.length_nil, Nat.add_zero, Run.after,
      List.nil_append]
  | cons r pre ih =>
    cases r with
    | none => simp [itemLoop]
    | some row =>
      rw [List.cons_append, itemLoop_some, itemLoop_some]
      cases ht : transfer env flags chatsMap row with
      | error e => rfl
      | ok sd =>
        obtain ⟨src, dst⟩ := sd
        simp only
        cases hc : copy (env.faults i) fs src dst with
        | mk e fs1 =>
          cases e with
          | some e => rfl
          | none =>
            simp only [ih (i + 1) fs1, Run.after]
            cases hr : (itemLoop env flags chatsMap pre (i + 1) fs1).result with
            | error e => simp [hr]
            | ok u =>
              have : i + 1 + pre.length = i + (pre.length + 1) := by omega
              simp [this]

/-- A row whose path has fewer than two segments, or whose second segment is not in the
chat index, has no transfer. -/
theorem transfer_bad_path (env : Env) (flags : Flags) (chatsMap : List (Str × Str))
    (row : Str × Value × Str)
    (hbad : (Split (TrimLeft row.2.2 "/".toList) '/').length < 2 ∨
      chatsMap.lookup ((Split (TrimLeft row.2.2 "/".toList) '/').getD 1 []) = none) :
    ∃ e, transfer env flags chatsMap row = .error e := by
  simp only [transfer]
  cases stampOf env.localZone env.fmul row.2.1 with
  | none => exact ⟨_, rfl⟩
  | some stamp =>
    simp only
    by_cases h : (Split (TrimLeft row.2.2 "/".toList) '/').length < 2
    · rw [if_pos h]; exact ⟨_, rfl⟩
    · rw [if_neg h]
      rcases hbad with hb | hb
      · exact absurd hb h
      · rw [hb]; exact ⟨_, rfl⟩

/-- C3: a media row whose stored path, stripped of leading separators and split, has fewer
than two segments, or whose second segment is not a key of the chat index, ends the run
with `log.Fatal` at that row: the events and the file system are those left by the rows
before it, so `copy` is invoked neither for that row nor for a later one. -/
theorem C3_bad_path_aborts (env : Env) (flags : Flags) (chatsMap : List (Str × Str))
    (pre rest : List (Option (Str × Value × Str))) (row : Str × Value × Str) (i : Nat) (fs : FS)
    (hbad : (Split (TrimLeft row.2.2 "/".toList) '/').length < 2 ∨
      chatsMap.lookup ((Split (TrimLeft row.2.2 "/".toList) '/').getD 1 []) = none) :
    (∃ e, (itemLoop env flags chatsMap (pre ++ some row :: rest) i fs).result = .error e) ∧
    (itemLoop env flags chatsMap (pre ++ some row :: rest) i fs).events =
      (itemLoop env flags chatsMap pre i fs).events ∧
    (itemLoop env flags chatsMap (pre ++ some row :: rest) i fs).fs =
      (itemLoop env flags chatsMap pre i fs).fs ∧
    (itemLoop env flags chatsMap (some row :: rest) i fs).events = [] := by
  obtain ⟨e, he⟩ := transfer_bad_path env flags chatsMap row hbad
  have hrow : ∀ j fs1, itemLoop env flags chatsMap (some row :: rest) j fs1 =
      ⟨[], .error e, fs1⟩ := by
    intro j fs1
    simp only [itemLoop, he]
  refine ⟨?_, ?_, ?_, by rw [hrow]⟩
  all_goals rw [itemLoop_append, hrow]
  all_goals cases hr : (itemLoop env flags chatsMap pre i fs).result with
    | error e1 => first | exact ⟨e1, hr⟩ | rfl
    | ok u => first | exact ⟨e, rfl⟩ | simp [Run.after]

/-- C3, witness: the chat table knows only identifier 123 and the media path names 999. -/
theorem C3_bad_path_aborts_witness :
    ([("123".toList, "Alice".toList)].lookup
        ((Split (TrimLeft "/abc/999/IMG.jpg".toList "/".toList) '/').getD 1 []) = none) ∧
    (∃ e, (itemLoop (exampleEnv UTC aliceChats oneItem) exampleFlags
      [("123".toList, "Alice".toList)]
      ([] ++ some ("s1".toList, Value.float64 0, "/abc/999/IMG.jpg".toList) :: []) 0
        exampleFS).result = .error e) :=
  ⟨by decide,
    (C3_bad_path_aborts (exampleEnv UTC aliceChats oneItem) exampleFlags
      [("123".toList, "Alice".toList)] [] []
      ("s1".toList, Value.float64 0, "/abc/999/IMG.jpg".toList) 0 exampleFS
      (Or.inr (by decide))).1⟩

/-- The transfer of a row whose timestamp, path and chat are accepted depends on the
number of pieces of the last segment. -/
theorem transfer_accepted (env : Env) (flags : Flags) (chatsMap : List (Str × Str))
    (row : Str × Value × Str) (stamp folder : Str)
    (hstamp : stampOf env.localZone env.fmul row.2.1 = some stamp)
    (hlen : 2 ≤ (Split (TrimLeft row.2.2 "/".toList) '/').length)
    (hfolder : chatsMap.lookup ((Split (TrimLeft row.2.2 "/".toList) '/').getD 1 []) =
      some folder) :
    transfer env flags chatsMap row =
      if (Split ((Split (TrimLeft row.2.2 "/".toList) '/').getD
          ((Split (TrimLeft row.2.2 "/".toList) '/').length - 1) []) '.').length ≠ 2
      then .error (.invalidFileName (TrimLeft row.2.2 "/".toList))
      else .ok (flags.media ++ "/".toList ++
          Join ((Split (TrimLeft row.2.2 "/".toList) '/').drop 1) "/".toList,
        flags.target ++ "/".toList ++ folder ++ "/".toList ++
          (stamp ++ ".".toList ++
            (Split ((Split (TrimLeft row.2.2 "/".toList) '/').getD
              ((Split (TrimLeft row.2.2 "/".toList) '/').length - 1) []) '.').getD 1 [])) := by
  simp only [transfer, hstamp, hfolder]
  rw [if_neg (by omega)]

/-- C4: for a media row that reaches the file name construction (timestamp supported,
at least two path segments, second segment in the chat index), the row is accepted if and
only if its last path segment holds exactly one dot; with any other number of dots the run
ends with `log.Fatal` at that row without a copy; with exactly one, the last segment is a
base, the dot and an extension, and the destination file name ends in a dot and exactly
that extension. -/
theorem C4_exactly_one_dot (env : Env) (flags : Flags) (chatsMap : List (Str × Str))
    (row : Str × Value × Str) (stamp folder : Str)
    (rest : List (Option (Str × Value × Str))) (i : Nat) (fs : FS)
    (hstamp : stampOf env.localZone env.fmul row.2.1 = some stamp)
    (hlen : 2 ≤ (Split (TrimLeft row.2.2 "/".toList) '/').length)
    (hfolder : chatsMap.lookup ((Split (TrimLeft row.2.2 "/".toList) '/').getD 1 []) =
      some folder) :
    ((∃ sd, transfer env flags chatsMap row = .ok sd) ↔
      ((Split (TrimLeft row.2.2 "/".toList) '/').getD
        ((Split (TrimLeft row.2.2 "/".toList) '/').length - 1) []).count '.' = 1) ∧
    (((Split (TrimLeft row.2.2 "/".toList) '/').getD
        ((Split (TrimLeft row.2.2 "/".toList) '/').length - 1) []).count '.' ≠ 1 →
      itemLoop env flags chatsMap (some row :: rest) i fs =
        ⟨[], .error (.invalidFileName (TrimLeft row.2.2 "/".toList)), fs⟩) ∧
    (((Split (TrimLeft row.2.2 "/".toList) '/').getD
        ((Split (TrimLeft row.2.2 "/".toList) '/').length - 1) []).count '.' = 1 →
      ∃ base ext,
        (Split (TrimLeft row.2.2 "/".toList) '/').getD
          ((Split (TrimLeft row.2.2 "/".toList) '/').length - 1) [] = base ++ '.' :: ext ∧
        '.' ∉ base ∧ '.' ∉ ext ∧
        transfer env flags chatsMap row = .ok (flags.media ++ "/".toList ++
            Join ((Split (TrimLeft row.2.2 "/".toList) '/').drop 1) "/".toList,
          flags.target ++ "/".toList ++ folder ++ "/".toList ++
            (stamp ++ ".".toList ++ ext))) := by
  have ht := transfer_accepted env flags chatsMap row stamp folder hstamp hlen hfolder
  generalize (Split (TrimLeft row.2.2 "/".toList) '/').getD
    ((Split (TrimLeft row.2.2 "/".toList) '/').length - 1) [] = last at ht ⊢
  have hl := Split_length last '.'
  refine ⟨?_, ?_, ?_⟩
  · constructor
    · rintro ⟨sd, hsd⟩
      by_contra hne
      rw [ht, if_pos (by omega)] at hsd
      cases hsd
    · intro h1
      rw [ht, if_neg (by omega)]
      exact ⟨_, rfl⟩
  · intro hne
    rw [itemLoop_some, ht, if_pos (by omega)]
  · intro h1
    obtain ⟨base, ext, e1, e2, e3, e4⟩ := Split_two last '.' (by omega)
    refine ⟨base, ext, e1, e2, e3, ?_⟩
    rw [ht, if_neg (by omega), e4]
    rfl

/-- C4, witness: the row of the end-to-end scenario, whose last segment `IMG.jpg` has one
dot. -/
theorem C4_exactly_one_dot_witness :
    stampOf UTC exactMul (.float64 0) = some "20010101000000.000".toList ∧
    ∃ sd, transfer (exampleEnv UTC aliceChats oneItem) exampleFlags
      [("123".toList, "Alice".toList)]
      ("s1".toList, Value.float64 0, "/abc/123/IMG.jpg".toList) = .ok sd :=
  have h : stampOf UTC exactMul (.float64 0) = some "20010101000000.000".toList := by
    rw [stampOf_zero]; decide
  ⟨h, (C4_exactly_one_dot (exampleEnv UTC aliceChats oneItem) exampleFlags
    [("123".toList, "Alice".toList)]
    ("s1".toList, Value.float64 0, "/abc/123/IMG.jpg".toList)
    "20010101000000.000".toList "Alice".toList [] 0 exampleFS h (by decide) (by decide)).1.mpr
    (by decide)⟩

/-- A row that passes the checks is turned into the source and destination of the claim. -/
theorem transfer_paths (env : Env) (flags : Flags) (chatsMap : List (Str × Str))
    (sec : Str) (val : Value) (path p0 p1 : Str) (ps : List Str) (name base ext stamp : Str)
    (hpath : TrimLeft path "/".toList = Join (p0 :: p1 :: ps) "/".toList)
    (hseg : ∀ q ∈ p0 :: p1 :: ps, '/' ∉ q)
    (hname : chatsMap.lookup p1 = some name)
    (hlast : (p1 :: ps).getLast? = some (base ++ '.' :: ext))
    (hbase : '.' ∉ base) (hext : '.' ∉ ext)
    (hstamp : stampOf env.localZone env.fmul val = some stamp) :
    transfer env flags chatsMap (sec, val, path) =
      .ok (flags.media ++ "/".toList ++ Join (p1 :: ps) "/".toList,
        flags.target ++ "/".toList ++ name ++ "/".toList ++ (stamp ++ ".".toList ++ ext)) := by
  have hs : Split (TrimLeft path "/".toList) '/' = p0 :: p1 :: ps := by
    rw [hpath]; exact Split_Join p0 (p1 :: ps) '/' hseg
  have hl : (p0 :: p1 :: ps).getD ((p0 :: p1 :: ps).length - 1) [] = base ++ '.' :: ext := by
    apply getD_last
    rw [List.getLast?_cons_cons]
    exact hlast
  have h := transfer_accepted env flags chatsMap (sec, val, path) stamp name hstamp
    (by rw [hs]; simp) (by rw [hs]; simpa using hname)
  rw [h]
  simp only [hs, hl]
  have h2 : Split (base ++ '.' :: ext) '.' = [base, ext] := by
    rw [Split_append_sep base ext '.' hbase, Split_no_sep ext '.' hext]
  rw [h2]
  simp

/-- The end-to-end scenario on a local clock with a constant offset. -/
theorem transfer_alice (env : Env) (flags : Flags) (o : Int)
    (hzone : env.localZone = fixedZone o) (hf : Faithful env.fmul) :
    transfer env flags [("123".toList, "Alice".toList)]
        ("s1".toList, .float64 0, "/abc/123/IMG.jpg".toList) =
      .ok (flags.media ++ "/123/IMG.jpg".toList,
        flags.target ++ "/Alice/".toList ++
          (calendarStamp o 978307200000 ++ ".jpg".toList)) := by
  have hst : stampOf env.localZone env.fmul (.float64 0) =
      some (calendarStamp o 978307200000) := by
    rw [stampOf_origin env.localZone env.fmul hf, hzone]
    rfl
  have h := transfer_paths env flags [("123".toList, "Alice".toList)] "s1".toList (.float64 0)
    "/abc/123/IMG.jpg".toList "abc".toList "123".toList ["IMG.jpg".toList] "Alice".toList
    "IMG".toList "jpg".toList (calendarStamp o 978307200000) (by decide) (by decide)
    (by decide) (by decide) (by decide) (by decide) hst
  rw [h]
  simp [Join]

/-- C2, as amended: for every media row that passes the row checks (the path, stripped of
leading separators, is p0/p1/.../pn; p1 is mapped by the chat index to the name N; the
last segment is base.ext; the timestamp is supported), the loop invokes `copy` with source
`<media>/p1/.../pn` and destination `<target>/N/<timestamp string>.ext`.  When the local
time zone of the process is UTC, the chat row (Alice, 123) and the media row (timestamp
0.0, path /abc/123/IMG.jpg) give the source `<media>/123/IMG.jpg` and the destination
`<target>/Alice/20010101000000.000.jpg`. -/
theorem C2_source_and_destination (env : Env) (flags : Flags) (chatsMap : List (Str × Str))
    (sec : Str) (val : Value) (path p0 p1 : Str) (ps : List Str) (name base ext stamp : Str)
    (rest : List (Option (Str × Value × Str))) (i : Nat) (fs : FS)
    (envU : Env)
    (hpath : TrimLeft path "/".toList = Join (p0 :: p1 :: ps) "/".toList)
    (hseg : ∀ q ∈ p0 :: p1 :: ps, '/' ∉ q)
    (hname : chatsMap.lookup p1 = some name)
    (hlast : (p1 :: ps).getLast? = some (base ++ '.' :: ext))
    (hbase : '.' ∉ base) (hext : '.' ∉ ext)
    (hstamp : stampOf env.localZone env.fmul val = some stamp)
    (hutc : envU.localZone = UTC) (hf : Faithful envU.fmul) :
    transfer env flags chatsMap (sec, val, path) =
      .ok (flags.media ++ "/".toList ++ Join (p1 :: ps) "/".toList,
        flags.target ++ "/".toList ++ name ++ "/".toList ++ (stamp ++ ".".toList ++ ext)) ∧
    (∃ tail, (itemLoop env flags chatsMap (some (sec, val, path) :: rest) i fs).events =
      .copy (flags.media ++ "/".toList ++ Join (p1 :: ps) "/".toList)
        (flags.target ++ "/".toList ++ name ++ "/".toList ++ (stamp ++ ".".toList ++ ext))
        :: tail) ∧
    transfer envU flags [("123".toList, "Alice".toList)]
        ("s1".toList, .float64 0, "/abc/123/IMG.jpg".toList) =
      .ok (flags.media ++ "/123/IMG.jpg".toList,
        flags.target ++ "/Alice/20010101000000.000.jpg".toList) := by
  have ht := transfer_paths env flags chatsMap sec val path p0 p1 ps name base ext stamp hpath
    hseg hname hlast hbase hext hstamp
  refine ⟨ht, ?_, ?_⟩
  · rw [itemLoop_some, ht]
    simp only
    cases hc : copy (env.faults i) fs (flags.media ++ "/".toList ++ Join (p1 :: ps) "/".toList)
      (flags.target ++ "/".toList ++ name ++ "/".toList ++ (stamp ++ ".".toList ++ ext)) with
    | mk e fs1 =>
      cases e with
      | some e => exact ⟨[], rfl⟩
      | none => exact ⟨_, rfl⟩
  · rw [transfer_alice envU flags 0 hutc hf]
    have : calendarStamp 0 978307200000 = "20010101000000.000".toList := by decide
    rw [this]
    simp

/-- C2, witness: the row of the end-to-end scenario in UTC and without faults. -/
theorem C2_source_and_destination_witness :
    transfer (exampleEnv UTC aliceChats oneItem) exampleFlags [("123".toList, "Alice".toList)]
        ("s1".toList, .float64 0, "/abc/123/IMG.jpg".toList) =
      .ok ("media/123/IMG.jpg".toList, "out/Alice/20010101000000.000.jpg".toList) :=
  have h : stampOf UTC exactMul (.float64 0) = some "20010101000000.000".toList := by
    rw [stampOf_zero]; decide
  (C2_source_and_destination (exampleEnv UTC aliceChats oneItem) exampleFlags
    [("123".toList, "Alice".toList)] "s1".toList (.float64 0) "/abc/123/IMG.jpg".toList
    "abc".toList "123".toList ["IMG.jpg".toList] "Alice".toList "IMG".toList "jpg".toList
    "20010101000000.000".toList [] 0 exampleFS (exampleEnv UTC aliceChats oneItem)
    (by decide) (by decide) (by decide) (by decide) (by decide) (by decide) h rfl
    exactMul_faithful).2.2

/-- C2, counterexample: on a local clock one hour east of UTC the row of the end-to-end
scenario is copied to `<target>/Alice/20010101010000.000.jpg`, not to
`<target>/Alice/20010101000000.000.jpg`. -/
theorem C2_destination_counterexample :
    transfer (exampleEnv (fixedZone 3600) aliceChats oneItem) exampleFlags
        [("123".toList, "Alice".toList)]
        ("s1".toList, .float64 0, "/abc/123/IMG.jpg".toList) =
      .ok ("media/123/IMG.jpg".toList, "out/Alice/20010101010000.000.jpg".toList) ∧
    "out/Alice/20010101010000.000.jpg".toList ≠ "out/Alice/20010101000000.000.jpg".toList := by
  refine ⟨?_, by decide⟩
  rw [transfer_alice (exampleEnv (fixedZone 3600) aliceChats oneItem) exampleFlags 3600 rfl
    exactMul_faithful]
  have : calendarStamp 3600 978307200000 = "20010101010000.000".toList := by decide
  rw [this]
  rfl

/-! ## The chat loop -/

theorem lookup_cons_ne (k id name : Str) (m : List (Str × Str)) (h : k ≠ id) :
    List.lookup k ((id, name) :: m) = List.lookup k m := by
  have hb : (k == id) = false := beq_eq_false_iff_ne.mpr h
  simp [List.lookup, hb]

theorem lookup_cons_self (id name : Str) (m : List (Str × Str)) :
    List.lookup id ((id, name) :: m) = some name := by
  simp [List.lookup]

theorem chatLoop_none (env : Env) (target : Str) (rest : List (Option (Str × Str)))
    (chatsMap : List (Str × Str)) (fs : FS) :
    chatLoop env target (none :: rest) chatsMap fs =
      (chatLoop env target rest chatsMap fs).after [.scanWarning] := by
  rw [chatLoop]

theorem chatLoop_some (env : Env) (target name id : Str) (rest : List (Option (Str × Str)))
    (chatsMap : List (Str × Str)) (fs : FS) :
    chatLoop env target (some (name, id) :: rest) chatsMap fs =
      if (chatsMap.lookup id).isSome then ⟨[], .error (.duplicateId id), fs⟩
      else
        if missing env fs (target ++ "/".toList ++ name) then
          match env.mkdirAll fs (target ++ "/".toList ++ name) with
          | none => ⟨[.mkdirAll (target ++ "/".toList ++ name)], .error .mkdirFailed, fs⟩
          | some fs1 =>
            (chatLoop env target rest ((id, name) :: chatsMap) fs1).after
              [.mkdirAll (target ++ "/".toList ++ name)]
        else chatLoop env target rest ((id, name) :: chatsMap) fs := by
  rw [chatLoop]

/-- A row whose identifier is already in the index ends the loop. -/
theorem chatLoop_duplicate (env : Env) (target name id : Str)
    (rest : List (Option (Str × Str))) (chatsMap : List (Str × Str)) (fs : FS)
    (h : (chatsMap.lookup id).isSome = true) :
    chatLoop env target (some (name, id) :: rest) chatsMap fs =
      ⟨[], .error (.duplicateId id), fs⟩ := by
  rw [chatLoop_some, if_pos h]

/-- The chat loop over a list of rows in two parts. -/
theorem chatLoop_append (env : Env) (target : Str) (pre post : List (Option (Str × Str)))
    (chatsMap : List (Str × Str)) (fs : FS) :
    chatLoop env target (pre ++ post) chatsMap fs =
      match (chatLoop env target pre chatsMap fs).result with
      | .error _ => chatLoop env target pre chatsMap fs
      | .ok m =>
        (chatLoop env target post m (chatLoop env target pre chatsMap fs).fs).after
          (chatLoop env target pre chatsMap fs).events := by
  induction pre generalizing chatsMap fs with
  | nil => simp only [List.nil_append, chatLoop, Run.after]
  | cons r pre ih =>
    cases r with
    | none =>
      rw [List.cons_append, chatLoop_none, chatLoop_none, ih]
      cases hr : (chatLoop env target pre chatsMap fs).result with
      | error e => simp [Run.after, hr]
      | ok m => simp [Run.after, hr]
    | some row =>
      obtain ⟨name, id⟩ := row
      rw [List.cons_append, chatLoop_some, chatLoop_some]
      by_cases hd : (chatsMap.lookup id).isSome = true
      · simp only [if_pos hd]
      · simp only [if_neg hd]
        by_cases hm : missing env fs (target ++ "/".toList ++ name) = true
        · simp only [if_pos hm]
          cases hk : env.mkdirAll fs (target ++ "/".toList ++ name) with
          | none => rfl
          | some fs1 =>
            simp only [ih]
            cases hr : (chatLoop env target pre ((id, name) :: chatsMap) fs1).result with
            | error e => simp [Run.after, hr]
            | ok m => simp [Run.after, hr]
        · simp only [if_neg hm, ih]

/-- The chat loop only warns and makes folders. -/
theorem chatLoop_events (env : Env) (target : Str) (rows : List (Option (Str × Str)))
    (chatsMap : List (Str × Str)) (fs : FS) :
    ∀ e ∈ (chatLoop env target rows chatsMap fs).events,
      e = .scanWarning ∨ ∃ p, e = .mkdirAll p := by
  induction rows generalizing chatsMap fs with
  | nil => intro e he; simp [chatLoop] at he
  | cons r rows ih =>
    cases r with
    | none =>
      rw [chatLoop_none]
      intro e he
      simp only [Run.after, List.singleton_append, List.mem_cons] at he
      rcases he with he | he
      · exact Or.inl he
      · exact ih _ _ e he
    | some row =>
      obtain ⟨name, id⟩ := row
      rw [chatLoop_some]
      split_ifs
      · intro e he; simp at he
      · cases hk : env.mkdirAll fs (target ++ "/".toList ++ name) with
        | none =>
          intro e he
          simp only [List.mem_singleton] at he
          exact Or.inr ⟨_, he⟩
        | some fs1 =>
          intro e he
          simp only [Run.after, List.singleton_append, List.mem_cons] at he
          rcases he with he | he
          · exact Or.inr ⟨_, he⟩
          · exact ih _ _ e he
      · exact ih _ _

/-- When the chat loop ends without `log.Fatal`, the index keeps what it held and maps the
identifier of every scanned row to the name of that row. -/
theorem chatLoop_ok (env : Env) (target : Str) (rows : List (Option (Str × Str)))
    (chatsMap : List (Str × Str)) (fs : FS) (m : List (Str × Str))
    (h : (chatLoop env target rows chatsMap fs).result = .ok m) :
    (∀ id v, chatsMap.lookup id = some v → m.lookup id = some v) ∧
    (∀ name id, some (name, id) ∈ rows → m.lookup id = some name) := by
  induction rows generalizing chatsMap fs with
  | nil =>
    simp only [chatLoop] at h
    injection h with h
    subst h
    exact ⟨fun _ _ h => h, fun _ _ h => by simp at h⟩
  | cons r rows ih =>
    cases r with
    | none =>
      rw [chatLoop_none] at h
      obtain ⟨h1, h2⟩ := ih chatsMap fs h
      refine ⟨h1, ?_⟩
      intro name id hmem
      simp only [List.mem_cons] at hmem
      rcases hmem with hmem | hmem
      · cases hmem
      · exact h2 name id hmem
    | some row =>
      obtain ⟨name, id⟩ := row
      rw [chatLoop_some] at h
      by_cases hd : (chatsMap.lookup id).isSome = true
      · rw [if_pos hd] at h; cases h
      · rw [if_neg hd] at h
        have hnone : chatsMap.lookup id = none := by
          cases hl : chatsMap.lookup id with
          | none => rfl
          | some v => rw [hl] at hd; simp at hd
        have hrec : ∃ fs1, (chatLoop env target rows ((id, name) :: chatsMap) fs1).result =
            .ok m := by
          by_cases hm : missing env fs (target ++ "/".toList ++ name) = true
          · rw [if_pos hm] at h
            cases hk : env.mkdirAll fs (target ++ "/".toList ++ name) with
            | none => rw [hk] at h; cases h
            | some fs1 => rw [hk] at h; exact ⟨fs1, h⟩
          · rw [if_neg hm] at h; exact ⟨fs, h⟩
        obtain ⟨fs1, hrec⟩ := hrec
        obtain ⟨h1, h2⟩ := ih ((id, name) :: chatsMap) fs1 hrec
        have hself : m.lookup id = some name := h1 id name (lookup_cons_self id name chatsMap)
        refine ⟨?_, ?_⟩
        · intro k v hk
          apply h1
          have hne : k ≠ id := by
            intro e; rw [e, hnone] at hk; cases hk
          rw [lookup_cons_ne k id name chatsMap hne, hk]
        · intro n k hmem
          simp only [List.mem_cons] at hmem
          rcases hmem with hmem | hmem
          · cases hmem; exact hself
          · exact h2 n k hmem

/-- With pairwise distinct identifiers, none of them in the index yet, and an
`os.MkdirAll` that does not fail, the chat loop ends without `log.Fatal`. -/
theorem chatLoop_total (env : Env) (target : Str) (rows : List (Option (Str × Str)))
    (chatsMap : List (Str × Str)) (fs : FS)
    (hmk : ∀ fs1 p, (env.mkdirAll fs1 p).isSome = true)
    (hnodup : (scannedIds rows).Nodup)
    (hfresh : ∀ id ∈ scannedIds rows, chatsMap.lookup id = none) :
    ∃ m, (chatLoop env target rows chatsMap fs).result = .ok m := by
  induction rows generalizing chatsMap fs with
  | nil => exact ⟨chatsMap, by simp [chatLoop]⟩
  | cons r rows ih =>
    cases r with
    | none =>
      rw [chatLoop_none]
      exact ih chatsMap fs (by simpa [scannedIds] using hnodup)
        (by simpa [scannedIds] using hfresh)
    | some row =>
      obtain ⟨name, id⟩ := row
      have hids : scannedIds (some (name, id) :: rows) = id :: scannedIds rows := by
        simp [scannedIds]
      rw [hids] at hnodup hfresh
      have hnone : chatsMap.lookup id = none := hfresh id (List.mem_cons_self _ _)
      have hnext : ∀ k ∈ scannedIds rows, ((id, name) :: chatsMap).lookup k = none := by
        intro k hk
        have hne : k ≠ id := by
          intro e; subst e; exact (List.nodup_cons.mp hnodup).1 hk
        rw [lookup_cons_ne k id name chatsMap hne, hfresh k (List.mem_cons_of_mem _ hk)]
      rw [chatLoop_some, hnone]
      simp only [Option.isSome_none, Bool.false_eq_true, if_false]
      by_cases hm : missing env fs (target ++ "/".toList ++ name) = true
      · rw [if_pos hm]
        cases hk : env.mkdirAll fs (target ++ "/".toList ++ name) with
        | none => have := hmk fs (target ++ "/".toList ++ name); rw [hk] at this; cases this
        | some fs1 => exact ih _ fs1 (List.nodup_cons.mp hnodup).2 hnext
      · rw [if_neg hm]
        exact ih _ fs (List.nodup_cons.mp hnodup).2 hnext

/-- A second row with an identifier that an earlier row has ends the chat loop there: the
loop ends with `log.Fatal`, the rows after it play no part, and when the rows before it
pass, the fatal error is the duplicate. -/
theorem chatLoop_second_row (env : Env) (target : Str) (pre post : List (Option (Str × Str)))
    (n1 n2 id : Str) (fs : FS) (hfirst : some (n1, id) ∈ pre) :
    (∃ e, (chatLoop env target (pre ++ some (n2, id) :: post) [] fs).result = .error e) ∧
    (chatLoop env target (pre ++ some (n2, id) :: post) [] fs).events =
      (chatLoop env target pre [] fs).events ∧
    (chatLoop env target (pre ++ some (n2, id) :: post) [] fs).fs =
      (chatLoop env target pre [] fs).fs ∧
    (∀ m, (chatLoop env target pre [] fs).result = .ok m →
      (chatLoop env target (pre ++ some (n2, id) :: post) [] fs).result =
        .error (.duplicateId id)) := by
  rw [chatLoop_append]
  cases hr : (chatLoop env target pre [] fs).result with
  | error e =>
    refine ⟨⟨e, hr⟩, rfl, rfl, ?_⟩
    intro m hm
    cases hm
  | ok m =>
    have hl := (chatLoop_ok env target pre [] fs m hr).2 n1 id hfirst
    have hd : chatLoop env target (some (n2, id) :: post) m (chatLoop env target pre [] fs).fs =
        ⟨[], .error (.duplicateId id), (chatLoop env target pre [] fs).fs⟩ :=
      chatLoop_duplicate env target n2 id post m _ (by rw [hl]; rfl)
    simp only [hd]
    exact ⟨⟨_, rfl⟩, by simp [Run.after], rfl, fun _ _ => rfl⟩

theorem copies_nil (es : List Event) (h : ∀ e ∈ es, ∀ s d, e ≠ .copy s d) : copies es = [] := by
  induction es with
  | nil => rfl
  | cons e es ih =>
    have ht := ih (fun x hx => h x (List.mem_cons_of_mem _ hx))
    cases e with
    | copy s d => exact absurd rfl (h _ (List.mem_cons_self _ _) s d)
    | mkdirAll p => simpa [copies] using ht
    | chatQuery => simpa [copies] using ht
    | scanWarning => simpa [copies] using ht
    | mediaQuery => simpa [copies] using ht

/-- With a repeated identifier in the chat table, lines 48-138 end with `log.Fatal` in
the chat loop: only the chat query, warnings and folder creations happen. -/
theorem chatPhase_duplicate (env : Env) (flags : Flags) (fs : FS)
    (pre post : List (Option (Str × Str))) (n1 n2 id : Str) (err : Bool)
    (hchats : env.db.chats = some ⟨pre ++ some (n2, id) :: post, err⟩)
    (hfirst : some (n1, id) ∈ pre) :
    (∃ e, (chatPhase env flags fs).result = .error e) ∧
    (∀ x ∈ (chatPhase env flags fs).events,
      x = .chatQuery ∨ x = .scanWarning ∨ ∃ p, x = .mkdirAll p) := by
  obtain ⟨⟨e, he⟩, hev, _, _⟩ := chatLoop_second_row env flags.target pre post n1 n2 id fs hfirst
  have hevs := chatLoop_events env flags.target (pre ++ some (n2, id) :: post) [] fs
  simp only [chatPhase, hchats, he]
  refine ⟨⟨e, rfl⟩, ?_⟩
  intro x hx
  simp only [List.mem_cons] at hx
  rcases hx with hx | hx
  · exact Or.inl hx
  · exact Or.inr (hevs x hx)

/-- The function `main` either ends with `log.Fatal` before the database is opened, having
at most made the target folder, or runs lines 42-138. -/
theorem main_cases (env : Env) (flags : Flags) (fs : FS) :
    (∃ e, (main env flags fs).result = .error e ∧
      ∀ x ∈ (main env flags fs).events, ∃ p, x = .mkdirAll p) ∨
    (∃ es fs1, (∀ x ∈ es, ∃ p, x = Event.mkdirAll p) ∧
      main env flags fs = (chatPhase env flags fs1).after es) := by
  simp only [main, session]
  split_ifs
  · exact Or.inl ⟨_, rfl, by simp⟩
  · exact Or.inl ⟨_, rfl, by simp⟩
  · exact Or.inl ⟨_, rfl, by simp⟩
  · exact Or.inl ⟨_, rfl, by simp⟩
  · cases hk : env.mkdirAll fs flags.target with
    | none => exact Or.inl ⟨_, rfl, by simp⟩
    | some fs1 => exact Or.inl ⟨_, rfl, by simp [Run.after]⟩
  · cases hk : env.mkdirAll fs flags.target with
    | none => exact Or.inl ⟨_, rfl, by simp⟩
    | some fs1 => exact Or.inr ⟨[.mkdirAll flags.target], fs1, by simp, rfl⟩
  · exact Or.inl ⟨_, rfl, by simp⟩
  · exact Or.inr ⟨[], fs, by simp, by simp [Run.after]⟩

/-- C5, as amended: when some partner identifier appears in two rows of the chat table
that both scan without error, the chat loop ends the run with `log.Fatal` at the second of
those rows: the run ends in error, the media query is never issued, `copy` is never
invoked, the rows after the second one play no part, and when the rows before it pass, the
error is the duplicate identifier.  When no identifier repeats among the rows that scan
(and no folder creation fails), the loop ends with an index that maps the identifier of
every scanned row to the display name of that row; a row that fails to scan is skipped. -/
theorem C5_duplicate_identifier (env : Env) (flags : Flags) (fs : FS)
    (pre post : List RawChat) (n1 n2 id : Str) (err : Bool)
    (env2 : Env) (table : List RawChat)
    (hchats : env.db.chats =
      some ⟨(pre ++ (some n2, some id) :: post).map scanChat, err⟩)
    (hfirst : (some n1, some id) ∈ pre)
    (hmk : ∀ fs1 p, (env2.mkdirAll fs1 p).isSome = true)
    (hnodup : (scannedIds (table.map scanChat)).Nodup) :
    (∃ e, (main env flags fs).result = .error e) ∧
    Event.mediaQuery ∉ (main env flags fs).events ∧
    copies (main env flags fs).events = [] ∧
    (∀ fs1,
      (chatLoop env flags.target ((pre ++ (some n2, some id) :: post).map scanChat) []
          fs1).events = (chatLoop env flags.target (pre.map scanChat) [] fs1).events ∧
      ∀ m, (chatLoop env flags.target (pre.map scanChat) [] fs1).result = .ok m →
        (chatLoop env flags.target ((pre ++ (some n2, some id) :: post).map scanChat) []
          fs1).result = .error (.duplicateId id)) ∧
    (∃ m, (chatLoop env2 flags.target (table.map scanChat) [] fs).result = .ok m ∧
      ∀ name k, (some name, some k) ∈ table → m.lookup k = some name) := by
  have hmap : (pre ++ (some n2, some id) :: post).map scanChat =
      pre.map scanChat ++ some (n2, id) :: post.map scanChat := by
    simp [scanChat]
  have hmem : some (n1, id) ∈ pre.map scanChat :=
    List.mem_map.mpr ⟨_, hfirst, rfl⟩
  rw [hmap] at hchats ⊢
  have hev : (∃ e, (main env flags fs).result = .error e) ∧
      ∀ x ∈ (main env flags fs).events,
        x = .chatQuery ∨ x = .scanWarning ∨ ∃ p, x = .mkdirAll p := by
    rcases main_cases env flags fs with ⟨e, he, hx⟩ | ⟨es, fs1, hes, hm⟩
    · exact ⟨⟨e, he⟩, fun x h => Or.inr (Or.inr (hx x h))⟩
    · obtain ⟨⟨e, he⟩, hx⟩ := chatPhase_duplicate env flags fs1 (pre.map scanChat)
        (post.map scanChat) n1 n2 id err hchats hmem
      rw [hm]
      refine ⟨⟨e, he⟩, ?_⟩
      intro x h
      simp only [Run.after, List.mem_append] at h
      rcases h with h | h
      · exact Or.inr (Or.inr (hes x h))
      · exact hx x h
  refine ⟨hev.1, ?_, ?_, ?_, ?_⟩
  · intro h
    rcases hev.2 _ h with h1 | h1 | ⟨p, h1⟩ <;> cases h1
  · apply copies_nil
    intro x h s d hc
    rcases hev.2 _ h with h1 | h1 | ⟨p, h1⟩ <;> rw [h1] at hc <;> cases hc
  · intro fs1
    obtain ⟨_, h2, _, h4⟩ := chatLoop_second_row env flags.target (pre.map scanChat)
      (post.map scanChat) n1 n2 id fs1 hmem
    exact ⟨h2, h4⟩
  · obtain ⟨m, hm⟩ := chatLoop_total env2 flags.target (table.map scanChat) [] fs hmk hnodup
      (fun _ _ => rfl)
    refine ⟨m, hm, ?_⟩
    intro name k hk
    exact (chatLoop_ok env2 flags.target _ [] fs m hm).2 name k
      (List.mem_map.mpr ⟨_, hk, rfl⟩)

/-- C5, witness: Alice and Bob share the identifier 123. -/
theorem C5_duplicate_identifier_witness :
    ((exampleEnv UTC duplicateChats oneItem).db.chats =
      some ⟨([(some "Alice".toList, some "123".toList)] ++
        (some "Bob".toList, some "123".toList) :: []).map scanChat, false⟩) ∧
    (∃ e, (main (exampleEnv UTC duplicateChats oneItem) exampleFlags exampleFS).result =
      .error e) ∧
    copies (main (exampleEnv UTC duplicateChats oneItem) exampleFlags exampleFS).events = [] :=
  have h := C5_duplicate_identifier (exampleEnv UTC duplicateChats oneItem) exampleFlags
    exampleFS [(some "Alice".toList, some "123".toList)] [] "Alice".toList "Bob".toList
    "123".toList false (exampleEnv UTC aliceChats oneItem)
    [(some "Alice".toList, some "123".toList)] rfl (by simp) (fun _ _ => rfl) (by decide)
  ⟨rfl, h.1, h.2.2.1⟩

/-! ## Whole runs -/

theorem itemLoop_step (env : Env) (flags : Flags) (chatsMap : List (Str × Str))
    (row : Str × Value × Str) (rest : List (Option (Str × Value × Str))) (i : Nat) (fs : FS)
    (src dst : Str) (ht : transfer env flags chatsMap row = .ok (src, dst))
    (hc : (copy (env.faults i) fs src dst).1 = none) :
    itemLoop env flags chatsMap (some row :: rest) i fs =
      (itemLoop env flags chatsMap rest (i + 1) (copy (env.faults i) fs src dst).2).after
        [.copy src dst] := by
  rw [itemLoop_some, ht]
  cases hcp : copy (env.faults i) fs src dst with
  | mk e fs1 =>
    rw [hcp] at hc
    simp only at hc
    subst hc
    simp only [hcp]

/-- The transfer of a row of the chat 123 at timestamp 0 in UTC. -/
theorem transfer_utc (chats : Rows (Str × Str)) (items : Rows (Str × Value × Str))
    (sec file base : Str) (hfile : file = base ++ ".jpg".toList)
    (h1 : '/' ∉ file) (h2 : '.' ∉ base) :
    transfer (exampleEnv UTC chats items) exampleFlags [("123".toList, "Alice".toList)]
        (sec, .float64 0, "/abc/123/".toList ++ file) =
      .ok ("media/123/".toList ++ file, "out/Alice/20010101000000.000.jpg".toList) := by
  have hst : stampOf (exampleEnv UTC chats items).localZone (exampleEnv UTC chats items).fmul
      (.float64 0) = some "20010101000000.000".toList := by
    have h0 := stampOf_zero UTC
    rw [show (exampleEnv UTC chats items).localZone = UTC from rfl,
      show (exampleEnv UTC chats items).fmul = exactMul from rfl, h0]
    decide
  have h := transfer_paths (exampleEnv UTC chats items) exampleFlags
    [("123".toList, "Alice".toList)] sec (.float64 0) ("/abc/123/".toList ++ file)
    "abc".toList "123".toList [file] "Alice".toList base "jpg".toList
    "20010101000000.000".toList (by simp [TrimLeft, Join]) (by
      intro q hq
      simp only [List.mem_cons, List.mem_singleton, List.not_mem_nil, or_false] at hq
      rcases hq with hq | hq | hq
      · subst hq; decide
      · subst hq; decide
      · subst hq; exact h1)
    (by decide) (by rw [hfile]; rfl) h2 (by decide) hst
  rw [h]
  simp [Join, exampleFlags]

/-- The end-to-end scenario of the specification, in UTC and without faults: the folder
of Alice is made, the one file is copied to `out/Alice/20010101000000.000.jpg`, the run
ends with status 0, and the copy has the bytes of the source. -/
theorem scenario_run :
    (main (exampleEnv UTC aliceChats oneItem) exampleFlags exampleFS).events =
      [.mkdirAll "out".toList, .chatQuery, .mkdirAll "out/Alice".toList, .mediaQuery,
        .copy "media/123/IMG.jpg".toList "out/Alice/20010101000000.000.jpg".toList] ∧
    (main (exampleEnv UTC aliceChats oneItem) exampleFlags exampleFS).result = .ok () ∧
    (main (exampleEnv UTC aliceChats oneItem) exampleFlags exampleFS).fs.content
      "out/Alice/20010101000000.000.jpg".toList = some [1, 1, 1] := by
  have ht := transfer_utc aliceChats oneItem "s1".toList "IMG.jpg".toList "IMG".toList rfl
    (by decide) (by decide)
  have hc : (copy ((exampleEnv UTC aliceChats oneItem).faults 0) aliceFS
      ("media/123/".toList ++ "IMG.jpg".toList) "out/Alice/20010101000000.000.jpg".toList).1 =
      none := by decide
  have hl := itemLoop_step (exampleEnv UTC aliceChats oneItem) exampleFlags
    [("123".toList, "Alice".toList)] _ [] 0 aliceFS _ _ ht hc
  have hm : main (exampleEnv UTC aliceChats oneItem) exampleFlags exampleFS =
      (mediaPhase (exampleEnv UTC aliceChats oneItem) exampleFlags
        [("123".toList, "Alice".toList)] aliceFS).after
        [.mkdirAll "out".toList, .chatQuery, .mkdirAll "out/Alice".toList] := by
    rfl
  have hp : mediaPhase (exampleEnv UTC aliceChats oneItem) exampleFlags
      [("123".toList, "Alice".toList)] aliceFS =
      ⟨[.mediaQuery, .copy "media/123/IMG.jpg".toList
          "out/Alice/20010101000000.000.jpg".toList], .ok (),
        (copy noFaults aliceFS "media/123/IMG.jpg".toList
          "out/Alice/20010101000000.000.jpg".toList).2⟩ := by
    simp only [mediaPhase]
    rw [show (exampleEnv UTC aliceChats oneItem).db.items = some oneItem from rfl]
    simp only
    rw [show oneItem.rows = [some ("s1".toList, Value.float64 0,
      "/abc/123/".toList ++ "IMG.jpg".toList)] from rfl, hl]
    rfl
  rw [hm, hp]
  refine ⟨rfl, rfl, ?_⟩
  simp only [Run.after]
  decide

/-! ## `copy` -/

/-- C7: when `src` is a regular file and `dst` exists and is the same file as `src` (and
`os.Stat` can see both), `copy` returns no error and leaves the file system as it was: no
link, create, truncate or write happens, whatever would fail in them. -/
theorem C7_same_file_is_noop (k : Faults) (fs : FS) (src dst : Str) (i : Nat) (c : List Nat)
    (hsrc : fs.entry src = some i) (hreg : fs.node i = .regular c)
    (hdst : fs.entry dst = some i) (hs : k.statSrc = false) (hd : k.statDst = false) :
    copy k fs src dst = (none, fs) := by
  simp [copy, Stat, hs, hd, hsrc, hdst, FileInfo.IsRegular, hreg, SameFile]

/-- C7, witness: the destination of an earlier run is a hard link of the source. -/
theorem C7_same_file_is_noop_witness :
    linkedFS.entry "media/123/IMG.jpg".toList = some 1 ∧
    linkedFS.entry "out/Alice/20010101000000.000.jpg".toList = some 1 ∧
    copy noFaults linkedFS "media/123/IMG.jpg".toList
      "out/Alice/20010101000000.000.jpg".toList = (none, linkedFS) :=
  ⟨by decide, by decide,
    C7_same_file_is_noop noFaults linkedFS "media/123/IMG.jpg".toList
      "out/Alice/20010101000000.000.jpg".toList 1 [1, 1, 1] (by decide) (by decide) (by decide)
      rfl rfl⟩

/-- After a first `copy` onto an absent destination, whatever failed in it, the source is
untouched and the destination is absent, or the source file itself, or another regular
file. -/
theorem copy_first (k : Faults) (fs : FS) (src dst : Str) (i : Nat) (c : List Nat)
    (hwf : fs.WF) (hsrc : fs.entry src = some i) (hreg : fs.node i = .regular c)
    (hdst : fs.entry dst = none) :
    (copy k fs src dst).2.entry src = some i ∧ (copy k fs src dst).2.node i = .regular c ∧
    (((copy k fs src dst).2.entry dst = none ∧ i < (copy k fs src dst).2.next) ∨
      (copy k fs src dst).2.entry dst = some i ∨
      ∃ j c2, (copy k fs src dst).2.entry dst = some j ∧ j ≠ i ∧
        (copy k fs src dst).2.node j = .regular c2) := by
  have hi : i < fs.next := hwf src i hsrc
  have hne : src ≠ dst := by
    intro e; rw [e, hdst] at hsrc; cases hsrc
  have hne2 : ¬ fs.next = i := by omega
  have hne3 : ¬ i = fs.next := by omega
  have keep : (fs.entry src = some i ∧ fs.node i = .regular c ∧
      ((fs.entry dst = none ∧ i < fs.next) ∨ fs.entry dst = some i ∨
        ∃ j c2, fs.entry dst = some j ∧ j ≠ i ∧ fs.node j = .regular c2)) :=
    ⟨hsrc, hreg, Or.inl ⟨hdst, hi⟩⟩
  simp only [copy, Stat, hsrc, hdst, FileInfo.IsRegular, hreg, linkOrCopy, Link, Open, Create]
  cases h1 : k.statSrc <;> simp only [Bool.false_eq_true, if_false, if_true, Bool.not_true,
    Bool.not_false]
  · cases h2 : k.statDst <;> simp only [Bool.false_eq_true, if_false, if_true]
    · cases h3 : k.link <;> simp only [Bool.false_eq_true, if_false, if_true]
      · simp [hne, hsrc, hreg]
      · cases h4 : k.openSrc <;> simp only [Bool.false_eq_true, if_false, if_true]
        · cases h5 : k.create <;> simp only [Bool.false_eq_true, if_false, if_true]
          · cases h6 : k.write <;> simp only
            · cases h7 : k.sync <;> cases h8 : k.close <;>
                simp [FS.write, hne, hsrc, hreg, hne2, hne3]
            · simp [FS.write, hne, hsrc, hreg, hne2, hne3]
          · exact keep
        · exact keep
    · exact keep
  · exact keep

/-- A `copy` in which nothing but the hard link may fail, onto a destination that is
absent, or the source file itself, or another regular file, returns no error and leaves
the bytes of the source at both paths. -/
theorem copy_second (k : Faults) (fs : FS) (src dst : Str) (i : Nat) (c : List Nat)
    (hk : k.onlyLink) (hsrc : fs.entry src = some i) (hreg : fs.node i = .regular c)
    (hdst : (fs.entry dst = none ∧ i < fs.next) ∨ fs.entry dst = some i ∨
      ∃ j c2, fs.entry dst = some j ∧ j ≠ i ∧ fs.node j = .regular c2) :
    (copy k fs src dst).1 = none ∧ (copy k fs src dst).2.content dst = some c ∧
    (copy k fs src dst).2.content src = some c := by
  obtain ⟨k1, k2, k3, k4, k5, k6, k7⟩ := hk
  rcases hdst with ⟨hd, hi⟩ | hd | ⟨j, c2, hd, hji, hj⟩
  · have hne : src ≠ dst := by
      intro e; rw [e, hd] at hsrc; cases hsrc
    have hne2 : ¬ fs.next = i := by omega
    have hne3 : ¬ i = fs.next := by omega
    simp only [copy, Stat, k1, k2, hsrc, hd, FileInfo.IsRegular, hreg, linkOrCopy, Link, Open,
      Create, k3, k4, k5, k6, k7, Bool.false_eq_true, if_false, Bool.not_true]
    cases h3 : k.link <;>
      simp [FS.write, FS.content, FS.bytes, hne, hsrc, hreg, hne2, hne3]
  · simp [copy, Stat, k1, k2, hsrc, hd, FileInfo.IsRegular, hreg, SameFile, FS.content]
  · have hne : src ≠ dst := by
      intro e; rw [e, hd] at hsrc; injection hsrc with h; exact hji h
    have hij : ¬ i = j := fun e => hji e.symm
    simp [copy, Stat, k1, k2, hsrc, hd, FileInfo.IsRegular, hreg, hj, SameFile, hij, linkOrCopy,
      Link, Open, Create, k3, k4, k5, k6, k7, FS.write, FS.content, FS.bytes]

/-- C6: when `src` is a regular file and `dst` is absent, running `copy(src, dst)` twice,
whatever happens in the first run (the hard link made or refused, any later step failing),
a second run in which no system call fails for an outside reason, the hard link apart,
returns no error and leaves at `dst` the bytes of `src`, which are unchanged. -/
theorem C6_copy_twice (k1 k2 : Faults) (fs : FS) (src dst : Str) (i : Nat) (c : List Nat)
    (hwf : fs.WF) (hsrc : fs.entry src = some i) (hreg : fs.node i = .regular c)
    (hdst : fs.entry dst = none) (hk2 : k2.onlyLink) :
    (copy k2 (copy k1 fs src dst).2 src dst).1 = none ∧
    (copy k2 (copy k1 fs src dst).2 src dst).2.content dst = some c ∧
    (copy k2 (copy k1 fs src dst).2 src dst).2.content src = some c := by
  obtain ⟨h1, h2, h3⟩ := copy_first k1 fs src dst i c hwf hsrc hreg hdst
  exact copy_second k2 _ src dst i c hk2 h1 h2 h3

theorem aliceFS_wf : aliceFS.WF := by
  intro p i h
  simp only [aliceFS, madeDir, exampleFS] at h ⊢
  split_ifs at h <;> simp_all <;> omega

/-- C6, witness: the media file of the scenario, copied twice to the folder of Alice, the
hard link refused in the first run. -/
theorem C6_copy_twice_witness :
    aliceFS.WF ∧ aliceFS.entry "out/Alice/20010101000000.000.jpg".toList = none ∧
    noFaults.onlyLink ∧
    (copy noFaults (copy linkRefused aliceFS "media/123/IMG.jpg".toList
      "out/Alice/20010101000000.000.jpg".toList).2 "media/123/IMG.jpg".toList
      "out/Alice/20010101000000.000.jpg".toList).1 = none ∧
    (copy noFaults (copy linkRefused aliceFS "media/123/IMG.jpg".toList
      "out/Alice/20010101000000.000.jpg".toList).2 "media/123/IMG.jpg".toList
      "out/Alice/20010101000000.000.jpg".toList).2.content
        "out/Alice/20010101000000.000.jpg".toList = some [1, 1, 1] ∧
    (copy noFaults (copy linkRefused aliceFS "media/123/IMG.jpg".toList
      "out/Alice/20010101000000.000.jpg".toList).2 "media/123/IMG.jpg".toList
      "out/Alice/20010101000000.000.jpg".toList).2.content
        "media/123/IMG.jpg".toList = some [1, 1, 1] :=
  ⟨aliceFS_wf, by decide, ⟨rfl, rfl, rfl, rfl, rfl, rfl, rfl⟩,
    C6_copy_twice linkRefused noFaults aliceFS "media/123/IMG.jpg".toList
      "out/Alice/20010101000000.000.jpg".toList 1 [1, 1, 1] aliceFS_wf (by decide) (by decide)
      (by decide) ⟨rfl, rfl, rfl, rfl, rfl, rfl, rfl⟩⟩

theorem Link_frame (f : Bool) (fs fs1 : FS) (src dst : Str) (h : Link f fs src dst = some fs1) :
    (∀ p, p ≠ dst → fs1.entry p = fs.entry p) ∧ fs1.node = fs.node := by
  simp only [Link] at h
  cases hs : fs.entry src with
  | none => rw [hs] at h; cases h
  | some si =>
    cases hd : fs.entry dst with
    | some j => rw [hs, hd] at h; cases h
    | none =>
      rw [hs, hd] at h
      cases f with
      | true => cases h
      | false =>
        simp only [Bool.false_eq_true, if_false, Option.some.injEq] at h
        subst h
        exact ⟨fun p hp => by simp [hp], rfl⟩

theorem Create_frame (f : Bool) (fs fs1 : FS) (dst : Str) (di : Nat)
    (h : Create f fs dst = some (di, fs1)) :
    (∀ p, p ≠ dst → fs1.entry p = fs.entry p) ∧
    (∀ i, i ≠ fs.next → fs.entry dst ≠ some i → fs1.node i = fs.node i ∧ i ≠ di) := by
  simp only [Create] at h
  cases f with
  | true => cases h
  | false =>
    simp only [Bool.false_eq_true, if_false] at h
    cases hd : fs.entry dst with
    | none =>
      rw [hd] at h
      simp only [Option.some.injEq, Prod.mk.injEq] at h
      obtain ⟨h1, h2⟩ := h
      subst h1; subst h2
      exact ⟨fun p hp => by simp [hp], fun i hi _ => by simp [hi]⟩
    | some j =>
      rw [hd] at h
      have key : some (j, fs.write j []) = some (di, fs1) →
          (∀ p, p ≠ dst → fs1.entry p = fs.entry p) ∧
          (∀ i, i ≠ fs.next → some j ≠ some i → fs1.node i = fs.node i ∧ i ≠ di) := by
        intro h
        simp only [Option.some.injEq, Prod.mk.injEq] at h
        obtain ⟨h1, h2⟩ := h
        subst h1; subst h2
        refine ⟨fun p _ => rfl, fun i _ hij => ?_⟩
        have hne : ¬ i = j := fun e => hij (by rw [e])
        exact ⟨by simp [FS.write, hne], hne⟩
      simp only at h
      cases hn : fs.node j with
      | directory => rw [hn] at h; cases h
      | regular c => rw [hn] at h; exact key h
      | irregular => rw [hn] at h; exact key h

/-- Lines 162-185 change no directory entry but that of `dst` and no file but the one
`dst` names or a new one. -/
theorem linkOrCopy_frame (k : Faults) (fs : FS) (src dst : Str) :
    (∀ p, p ≠ dst → (linkOrCopy k fs src dst).2.entry p = fs.entry p) ∧
    (∀ i, i ≠ fs.next → fs.entry dst ≠ some i →
      (linkOrCopy k fs src dst).2.node i = fs.node i) := by
  simp only [linkOrCopy]
  cases hl : Link k.link fs src dst with
  | some fs1 =>
    obtain ⟨h1, h2⟩ := Link_frame _ _ _ _ _ hl
    exact ⟨h1, fun i _ _ => by simp [h2]⟩
  | none =>
    simp only
    cases ho : Open k.openSrc fs src with
    | none => exact ⟨fun _ _ => rfl, fun _ _ _ => rfl⟩
    | some si =>
      simp only
      cases hc : Create k.create fs dst with
      | none => exact ⟨fun _ _ => rfl, fun _ _ _ => rfl⟩
      | some r =>
        obtain ⟨di, fs1⟩ := r
        obtain ⟨h1, h2⟩ := Create_frame _ _ _ _ _ hc
        have hw : ∀ (b : List Nat) (i : Nat), i ≠ fs.next → fs.entry dst ≠ some i →
            (fs1.write di b).node i = fs.node i := by
          intro b i hi hd
          obtain ⟨h3, h4⟩ := h2 i hi hd
          simp [FS.write, h4, h3]
        simp only
        cases k.write with
        | some n => exact ⟨fun p hp => h1 p hp, hw _⟩
        | none =>
          simp only
          split_ifs
          · exact ⟨fun p hp => h1 p hp, hw _⟩
          · exact ⟨fun p hp => h1 p hp, hw _⟩
          · exact ⟨fun p hp => h1 p hp, hw _⟩

theorem copy_cases (k : Faults) (fs : FS) (src dst : Str) :
    (copy k fs src dst).2 = fs ∨ (copy k fs src dst).2 = (linkOrCopy k fs src dst).2 := by
  simp only [copy]
  repeat' split
  all_goals first | exact Or.inl rfl | exact Or.inr rfl

/-- What `copy` leaves alone: the bytes read through a path other than `dst` that does not
name the file `dst` named before the call. -/
theorem copy_frame (k : Faults) (fs : FS) (src dst p : Str) (hwf : fs.WF) (hp : p ≠ dst)
    (hother : ∀ j, fs.entry dst = some j → fs.entry p ≠ some j) :
    (copy k fs src dst).2.content p = fs.content p := by
  rcases copy_cases k fs src dst with h | h
  · rw [h]
  · rw [h]
    obtain ⟨h1, h2⟩ := linkOrCopy_frame k fs src dst
    simp only [FS.content, h1 p hp]
    cases hpe : fs.entry p with
    | none => rfl
    | some i =>
      have hin : i ≠ fs.next := by
        have := hwf p i hpe
        omega
      have hid : fs.entry dst ≠ some i := by
        intro e
        exact hother i e hpe
      simp only [h2 i hin hid]

/-- C10, the defect: the destination `out/Alice/20010101000000.000.jpg` is a hard link of
`media/123/IMG.jpg`, left by the row copied before; `copy` of `media/123/PIC.jpg` to that
destination returns no error and `media/123/IMG.jpg` then reads the bytes of
`media/123/PIC.jpg`.  The run of `main` on the two media rows of one contact with the same
timestamp and extension ends with status 0 and leaves `media/123/IMG.jpg` so. -/
theorem C10_copy_overwrites_linked_source :
    linkedFS.content "media/123/IMG.jpg".toList = some [1, 1, 1] ∧
    (copy noFaults linkedFS "media/123/PIC.jpg".toList
      "out/Alice/20010101000000.000.jpg".toList).1 = none ∧
    (copy noFaults linkedFS "media/123/PIC.jpg".toList
      "out/Alice/20010101000000.000.jpg".toList).2.content "media/123/IMG.jpg".toList =
        some [2, 2] ∧
    exampleFS.content "media/123/IMG.jpg".toList = some [1, 1, 1] ∧
    (main (exampleEnv UTC aliceChats twoItems) exampleFlags exampleFS).result = .ok () ∧
    (main (exampleEnv UTC aliceChats twoItems) exampleFlags exampleFS).fs.content
      "media/123/IMG.jpg".toList = some [2, 2] := by
  refine ⟨by decide, by decide, by decide, by decide, ?_⟩
  have ht1 := transfer_utc aliceChats twoItems "s1".toList "IMG.jpg".toList "IMG".toList rfl
    (by decide) (by decide)
  have ht2 := transfer_utc aliceChats twoItems "s2".toList "PIC.jpg".toList "PIC".toList rfl
    (by decide) (by decide)
  have hc1 : (copy ((exampleEnv UTC aliceChats twoItems).faults 0) aliceFS
      ("media/123/".toList ++ "IMG.jpg".toList) "out/Alice/20010101000000.000.jpg".toList).1 =
      none := by decide
  have hc2 : (copy ((exampleEnv UTC aliceChats twoItems).faults (0 + 1))
      (copy ((exampleEnv UTC aliceChats twoItems).faults 0) aliceFS
        ("media/123/".toList ++ "IMG.jpg".toList)
        "out/Alice/20010101000000.000.jpg".toList).2
      ("media/123/".toList ++ "PIC.jpg".toList) "out/Alice/20010101000000.000.jpg".toList).1 =
      none := by decide
  have hl2 := itemLoop_step (exampleEnv UTC aliceChats twoItems) exampleFlags
    [("123".toList, "Alice".toList)] _ [] (0 + 1) _ _ _ ht2 hc2
  have hl1 := itemLoop_step (exampleEnv UTC aliceChats twoItems) exampleFlags
    [("123".toList, "Alice".toList)] _
    [some ("s2".toList, Value.float64 0, "/abc/123/".toList ++ "PIC.jpg".toList)] 0 aliceFS _ _
    ht1 hc1
  have hm : main (exampleEnv UTC aliceChats twoItems) exampleFlags exampleFS =
      (mediaPhase (exampleEnv UTC aliceChats twoItems) exampleFlags
        [("123".toList, "Alice".toList)] aliceFS).after
        [.mkdirAll "out".toList, .chatQuery, .mkdirAll "out/Alice".toList] := by
    rfl
  have hp : (mediaPhase (exampleEnv UTC aliceChats twoItems) exampleFlags
      [("123".toList, "Alice".toList)] aliceFS).result = .ok () ∧
      (mediaPhase (exampleEnv UTC aliceChats twoItems) exampleFlags
      [("123".toList, "Alice".toList)] aliceFS).fs =
        (copy noFaults (copy noFaults aliceFS "media/123/IMG.jpg".toList
          "out/Alice/20010101000000.000.jpg".toList).2 "media/123/PIC.jpg".toList
          "out/Alice/20010101000000.000.jpg".toList).2 := by
    simp only [mediaPhase]
    rw [show (exampleEnv UTC aliceChats twoItems).db.items = some twoItems from rfl]
    simp only
    rw [show twoItems.rows = [some ("s1".toList, Value.float64 0,
      "/abc/123/".toList ++ "IMG.jpg".toList), some ("s2".toList, Value.float64 0,
      "/abc/123/".toList ++ "PIC.jpg".toList)] from rfl, hl1, hl2]
    exact ⟨rfl, rfl⟩
  rw [hm]
  simp only [Run.after]
  rw [hp.1, hp.2]
  exact ⟨rfl, by decide⟩

/-! ## Errors -/

/-- The run on the chat table whose first row cannot be scanned: the row is logged, the
folder of Alice made, the media query issued, the file copied, and the status is 0. -/
theorem unreadable_row_run :
    (main (exampleEnv UTC unreadableRowChats oneItem) exampleFlags exampleFS).events =
      [.mkdirAll "out".toList, .chatQuery, .scanWarning, .mkdirAll "out/Alice".toList,
        .mediaQuery,
        .copy "media/123/IMG.jpg".toList "out/Alice/20010101000000.000.jpg".toList] ∧
    (main (exampleEnv UTC unreadableRowChats oneItem) exampleFlags exampleFS).result =
      .ok () := by
  have ht := transfer_utc unreadableRowChats oneItem "s1".toList "IMG.jpg".toList
    "IMG".toList rfl (by decide) (by decide)
  have hc : (copy ((exampleEnv UTC unreadableRowChats oneItem).faults 0) aliceFS
      ("media/123/".toList ++ "IMG.jpg".toList) "out/Alice/20010101000000.000.jpg".toList).1 =
      none := by decide
  have hl := itemLoop_step (exampleEnv UTC unreadableRowChats oneItem) exampleFlags
    [("123".toList, "Alice".toList)] _ [] 0 aliceFS _ _ ht hc
  have hm : main (exampleEnv UTC unreadableRowChats oneItem) exampleFlags exampleFS =
      (mediaPhase (exampleEnv UTC unreadableRowChats oneItem) exampleFlags
        [("123".toList, "Alice".toList)] aliceFS).after
        [.mkdirAll "out".toList, .chatQuery, .scanWarning, .mkdirAll "out/Alice".toList] := by
    rfl
  have hp : mediaPhase (exampleEnv UTC unreadableRowChats oneItem) exampleFlags
      [("123".toList, "Alice".toList)] aliceFS =
      ⟨[.mediaQuery, .copy "media/123/IMG.jpg".toList
          "out/Alice/20010101000000.000.jpg".toList], .ok (),
        (copy noFaults aliceFS "media/123/IMG.jpg".toList
          "out/Alice/20010101000000.000.jpg".toList).2⟩ := by
    simp only [mediaPhase]
    rw [show (exampleEnv UTC unreadableRowChats oneItem).db.items = some oneItem from rfl]
    simp only
    rw [show oneItem.rows = [some ("s1".toList, Value.float64 0,
      "/abc/123/".toList ++ "IMG.jpg".toList)] from rfl, hl]
    rfl
  rw [hm, hp]
  exact ⟨rfl, rfl⟩

/-- C5, counterexample: the identifier 123 appears in two rows of the chat table, the
first with a NULL name; `Scan` fails on the first row, which is skipped, so the second row
is no duplicate: the run issues the media query, copies the file and ends with status 0. -/
theorem C5_unscanned_row_counterexample :
    tableIds nullNameTable = ["123".toList, "123".toList] ∧
    (exampleEnv UTC unreadableRowChats oneItem).db.chats =
      some ⟨nullNameTable.map scanChat, false⟩ ∧
    Event.mediaQuery ∈
      (main (exampleEnv UTC unreadableRowChats oneItem) exampleFlags exampleFS).events ∧
    copies (main (exampleEnv UTC unreadableRowChats oneItem) exampleFlags
      exampleFS).events =
        [("media/123/IMG.jpg".toList, "out/Alice/20010101000000.000.jpg".toList)] ∧
    (main (exampleEnv UTC unreadableRowChats oneItem) exampleFlags exampleFS).result =
      .ok () := by
  refine ⟨by decide, rfl, ?_, ?_, unreadable_row_run.2⟩
  · rw [unreadable_row_run.1]; decide
  · rw [unreadable_row_run.1]; rfl

/-- C8, counterexample: the first row of the chat query cannot be scanned; the run logs
it, goes on with the next chat row, makes the folder of Alice, issues the media query,
copies the file and ends with status 0. -/
theorem C8_scan_error_is_skipped :
    unreadableRowChats.rows = [none, some ("Alice".toList, "123".toList)] ∧
    (main (exampleEnv UTC unreadableRowChats oneItem) exampleFlags exampleFS).events =
      [.mkdirAll "out".toList, .chatQuery, .scanWarning, .mkdirAll "out/Alice".toList,
        .mediaQuery,
        .copy "media/123/IMG.jpg".toList "out/Alice/20010101000000.000.jpg".toList] ∧
    (main (exampleEnv UTC unreadableRowChats oneItem) exampleFlags exampleFS).result =
      .ok () :=
  ⟨rfl, unreadable_row_run.1, unreadable_row_run.2⟩

/-- C8, as amended: a scan error on a media row, a media row that fails a check (an
unsupported timestamp type among them), a transfer error, a query error, an error
reported by `rows.Err`, a failure of `sql.Open` and a failure to make the target folder or
a contact folder each end the run with `log.Fatal` at that point: no later row is
processed and no later folder or file is made.  Not every error does: a scan error on a
row of the chat query is logged and the loop goes on with the next row, and an `os.Stat`
error other than absence is taken as presence of the path. -/
theorem C8_errors_end_the_run (env : Env) (flags : Flags) (chatsMap : List (Str × Str))
    (fs : FS) (i : Nat) (pre rest : List (Option (Str × Value × Str)))
    (chatRest : List (Option (Str × Str))) (row : Str × Value × Str) (src dst name id : Str)
    (e : CopyError) :
    itemLoop env flags chatsMap (none :: rest) i fs = ⟨[], .error .scanFailed, fs⟩ ∧
    ((∃ er, (itemLoop env flags chatsMap (pre ++ none :: rest) i fs).result = .error er) ∧
      (itemLoop env flags chatsMap (pre ++ none :: rest) i fs).events =
        (itemLoop env flags chatsMap pre i fs).events ∧
      (itemLoop env flags chatsMap (pre ++ none :: rest) i fs).fs =
        (itemLoop env flags chatsMap pre i fs).fs) ∧
    (∀ er, transfer env flags chatsMap row = .error er →
      itemLoop env flags chatsMap (some row :: rest) i fs = ⟨[], .error er, fs⟩) ∧
    transfer env flags chatsMap (row.1, .other, row.2.2) = .error .unsupportedDateTime ∧
    (∀ fs1, transfer env flags chatsMap row = .ok (src, dst) →
      copy (env.faults i) fs src dst = (some e, fs1) →
      itemLoop env flags chatsMap (some row :: rest) i fs =
        ⟨[.copy src dst], .error (.copyFailed e), fs1⟩) ∧
    (env.db.chats = none → chatPhase env flags fs = ⟨[.chatQuery], .error .queryFailed, fs⟩) ∧
    (env.db.items = none →
      mediaPhase env flags chatsMap fs = ⟨[.mediaQuery], .error .queryFailed, fs⟩) ∧
    (∀ rows, env.db.chats = some ⟨rows, true⟩ →
      (∃ er, (chatPhase env flags fs).result = .error er) ∧
      (chatPhase env flags fs).events =
        .chatQuery :: (chatLoop env flags.target rows [] fs).events) ∧
    (∀ rows, env.db.items = some ⟨rows, true⟩ →
      ∃ er, (mediaPhase env flags chatsMap fs).result = .error er) ∧
    (env.db.openErr = true → session env flags fs = ⟨[], .error .openFailed, fs⟩) ∧
    (flags.db ≠ [] → flags.media ≠ [] → missing env fs flags.media = false →
      flags.target ≠ [] → missing env fs flags.target = true →
      env.mkdirAll fs flags.target = none →
      main env flags fs = ⟨[.mkdirAll flags.target], .error .mkdirFailed, fs⟩) ∧
    ((chatsMap.lookup id).isSome = false →
      missing env fs (flags.target ++ "/".toList ++ name) = true →
      env.mkdirAll fs (flags.target ++ "/".toList ++ name) = none →
      chatLoop env flags.target (some (name, id) :: chatRest) chatsMap fs =
        ⟨[.mkdirAll (flags.target ++ "/".toList ++ name)], .error .mkdirFailed, fs⟩) ∧
    chatLoop env flags.target (none :: chatRest) chatsMap fs =
      (chatLoop env flags.target chatRest chatsMap fs).after [.scanWarning] ∧
    (∀ p, env.statErr p = true → missing env fs p = false) := by
  refine ⟨by rw [itemLoop], ?_, ?_, ?_, ?_, ?_, ?_, ?_, ?_, ?_, ?_, ?_,
    chatLoop_none _ _ _ _ _, ?_⟩
  · have hrow : ∀ j fs1, itemLoop env flags chatsMap (none :: rest) j fs1 =
        ⟨[], .error .scanFailed, fs1⟩ := by
      intro j fs1; rw [itemLoop]
    rw [itemLoop_append, hrow]
    cases hr : (itemLoop env flags chatsMap pre i fs).result with
    | error e1 => exact ⟨⟨e1, hr⟩, rfl, rfl⟩
    | ok u => exact ⟨⟨_, rfl⟩, by simp [Run.after], rfl⟩
  · intro er h
    rw [itemLoop_some, h]
  · simp [transfer, stampOf, datetimeOf]
  · intro fs1 h hc
    rw [itemLoop_some, h]
    simp only [hc]
  · intro h
    simp only [chatPhase, h]
  · intro h
    simp only [mediaPhase, h]
  · intro rows h
    simp only [chatPhase, h]
    cases hr : (chatLoop env flags.target rows [] fs).result with
    | error e1 => exact ⟨⟨_, rfl⟩, rfl⟩
    | ok m => exact ⟨⟨_, rfl⟩, rfl⟩
  · intro rows h
    simp only [mediaPhase, h]
    cases hr : (itemLoop env flags chatsMap rows 0 fs).result with
    | error e1 => exact ⟨_, rfl⟩
    | ok m => exact ⟨_, rfl⟩
  · intro h
    simp only [session, h, if_true]
  · intro h1 h2 h3 h4 h5 h6
    simp only [main, h1, h2, h3, h4, h5, h6, if_false, if_true, Bool.false_eq_true]
  · intro h1 h2 h3
    rw [chatLoop_some]
    simp only [h1, h2, h3, Bool.false_eq_true, if_false, if_true]
  · intro p h
    simp [missing, h]


end WhatsappMedia
